import Mathlib

/-!
Verification development for the instrgen call-graph-guided instrumentation
pipeline (package `go.opentelemetry.io/contrib/instrgen`).

The development shallowly embeds the data model and the operations of the
pipeline:

* `FuncDescriptor`, `Contains`, the backward call graph and
  `addFuncCallToCallGraph` (src/unnamed/part_005, src/instrgen/lib/callgraph.go);
* the interface-resolution helpers `isAny`, `getInterfaceNameForReceiver` and
  the declaration registration of `findFuncDecls` (src/unnamed/part_005);
* a small Go AST fragment (expressions, statements, fields, files) rich
  enough for the rewriters, with the pruner `inspectFuncContent` /
  `OtelPruner.Rewrite` (src/instrgen/rewriters/runtime_rewriter.go), and the
  instrumentation statement builders `makeInitStmts` / `makeSpanStmts` and
  `BasicRewriter.Rewrite` (same file);
* the context-propagation pass `ContextPropagationPass.Execute`
  (src/unnamed/part_004) over a preorder node-event view of a file, and
  `isFunPartOfCallGraph` (src/unnamed/part_004);
* the pass engine `PackageAnalysis.Execute` (src/unnamed/part_003) with an
  explicit file-system-operation trace;
* `RuntimeRewriter.WriteExtraFiles` (src/unnamed/part_000) over an
  association-list file system.

Go maps are modelled as association lists (with the map's default-value
semantics for missing keys), Go slices as lists, and fallible file-system
operations via per-file success flags with `Except`/`Option` results.
-/

/-- Substring test, modelling Go `strings.Contains s pat`. -/
def strContains (s pat : String) : Bool :=
  s.toList.tails.any (fun t => pat.toList.isPrefixOf t)

/-- `FuncDescriptor` from src/unnamed/part_005: identity of a declared
function (package, receiver or interface type, name, signature type). -/
structure FuncDescriptor where
  PackageName : String
  Receiver : String
  FunctionName : String
  FuncType : String
deriving DecidableEq, Repr, Inhabited

/-- `FuncDescriptor.TypeHash` from src/unnamed/part_005. -/
def FuncDescriptor.TypeHash (fd : FuncDescriptor) : String :=
  fd.PackageName ++ fd.Receiver ++ "." ++ fd.FunctionName ++ "." ++ fd.FuncType

/-- Modelled from the spec: the repository's slice-membership helper
`Contains` (declared outside the files under src/, used by
`addFuncCallToCallGraph` and the passes): whether `x` occurs in `l`,
descriptors compared componentwise. -/
def Contains (l : List FuncDescriptor) (x : FuncDescriptor) : Bool :=
  l.any (fun y => decide (y = x))

/-- The backward call graph `map[FuncDescriptor][]FuncDescriptor`, as an
association list from callee to the slice of its callers. -/
abbrev CallGraph := List (FuncDescriptor × List FuncDescriptor)

/-- Go map read `backwardCallGraph[k]` with the zero-value default (`nil`
slice) for a missing key. -/
def cgLookup (g : CallGraph) (k : FuncDescriptor) : List FuncDescriptor :=
  match g.find? (fun p => decide (p.1 = k)) with
  | some p => p.2
  | none => []

/-- Go map write `backwardCallGraph[k] = v`. -/
def cgStore (g : CallGraph) (k : FuncDescriptor) (v : List FuncDescriptor) :
    CallGraph :=
  if g.any (fun p => decide (p.1 = k)) then
    g.map (fun p => if p.1 = k then (k, v) else p)
  else g ++ [(k, v)]

/-- `addFuncCallToCallGraph` from src/unnamed/part_005 lines 141-148: the
edge callee→caller is appended only when the caller is not already recorded
for this callee and the callee is a known declaration.  `funcDecls` is the
known-declaration set (a `map[FuncDescriptor]bool`, modelled as the list of
its keys). -/
def addFuncCallToCallGraph (funcCall currentFun : FuncDescriptor)
    (funcDecls : List FuncDescriptor) (g : CallGraph) : CallGraph :=
  if Contains (cgLookup g funcCall) currentFun then g
  else if Contains funcDecls funcCall then
    cgStore g funcCall (cgLookup g funcCall ++ [currentFun])
  else g

/-- The edge pass of `buildCallGraph` (src/unnamed/part_005 lines 150-199,
likewise the inline guarded append of `BuildCallGraph` in
src/instrgen/lib/callgraph.go lines 277-321): every resolved call site
yields a (callee, enclosing function) event; events are folded into the
graph by `addFuncCallToCallGraph`.  Call sites whose callee has no resolved
type are skipped by the source and therefore produce no event. -/
def buildCallGraphEvents (funcDecls : List FuncDescriptor)
    (events : List (FuncDescriptor × FuncDescriptor)) : CallGraph :=
  events.foldl (fun g e => addFuncCallToCallGraph e.1 e.2 funcDecls g) []

/-- A `types.Object` of a declared interface type, as the interface
resolution of src/unnamed/part_005 observes it through go/types: the
printed string of the type, the printed string of its underlying type,
whether the underlying type is an interface, and the method set of that
interface.  (go/types is an external collaborator; only these observations
are consumed by the code under verification.) -/
structure TypesObject where
  typeStr : String
  underlyingStr : String
  underlyingIsInterface : Bool
  methods : List String
deriving DecidableEq, Repr

/-- A receiver variable (`*types.Var`): printed receiver type string and
the receiver type's method set. -/
structure RecvVar where
  typeStr : String
  methods : List String
deriving DecidableEq, Repr

/-- `types.Implements(recv.Type(), t)` for an interface `t`: structural
satisfaction, i.e. the interface's method set is contained in the
receiver's method set. -/
def implementsIface (recv : RecvVar) (obj : TypesObject) : Bool :=
  obj.methods.all (fun m => recv.methods.contains m)

/-- `isAny` from src/unnamed/part_005 lines 59-61: the object's type string
or its underlying type's string is exactly `any`. -/
def isAny (obj : TypesObject) : Bool :=
  obj.typeStr == "any" || obj.underlyingStr == "any"

/-- `getInterfaceNameForReceiver` from src/unnamed/part_005 lines 63-73:
iterate the `interfaces` map (modelled as a list in iteration order); each
interface the receiver implements that is not `any` overwrites the result,
so the last such interface wins; otherwise the empty string is returned. -/
def getInterfaceNameForReceiver (interfaces : List TypesObject)
    (recv : RecvVar) : String :=
  interfaces.foldl
    (fun recvInterface obj =>
      if obj.underlyingIsInterface then
        if implementsIface recv obj && !(isAny obj) then "." ++ obj.typeStr
        else recvInterface
      else recvInterface)
    ""

/-- The registration step of `findFuncDecls` (src/unnamed/part_005 lines
109-132) for one function declaration: when the declaration has a receiver
and `getInterfaceNameForReceiver` is nonempty, an interface-keyed
descriptor is registered in addition to the concrete-receiver one. -/
def findFuncDeclsEntry (pkg : String) (interfaces : List TypesObject)
    (recv : Option RecvVar) (name ftype : String) : List FuncDescriptor :=
  match recv with
  | none => [⟨pkg, "", name, ftype⟩]
  | some r =>
    let recvStr := "." ++ r.typeStr
    let recvInterface := getInterfaceNameForReceiver interfaces r
    if recvInterface ≠ "" then
      [⟨pkg, recvInterface, name, ftype⟩, ⟨pkg, recvStr, name, ftype⟩]
    else [⟨pkg, recvStr, name, ftype⟩]

/-- The accessor-module source text written by
`RuntimeRewriter.WriteExtraFiles` (src/unnamed/part_000 lines 112-129). -/
def instrgenTlsSource : String :=
  "package runtime\n\nfunc InstrgenGetTls interface\x7b\x7d \x7b\n        return getg().m.curg._tls_instrgen\n\x7d\n\nfunc InstrgenSetTls(tls interface\x7b\x7d) \x7b\n        getg().m.curg._tls_instrgen = tls\n\x7d\n"

/-- A file system: association list from path to file content. -/
abbrev FileSys := List (String × String)

/-- `os.Create` followed by writing `content`: truncates an existing file
at `path` or creates a new one. -/
def fsSet (fs : FileSys) (path content : String) : FileSys :=
  if fs.any (fun q => q.1 == path) then
    fs.map (fun q => if q.1 == path then (path, content) else q)
  else fs ++ [(path, content)]

/-- Read a file's content, `none` when absent. -/
def fsGet (fs : FileSys) (path : String) : Option String :=
  (fs.find? (fun q => q.1 == path)).map (fun q => q.2)

/-- `RuntimeRewriter.WriteExtraFiles` from src/unnamed/part_000 lines
112-129: unconditionally `os.Create` the fixed file
`destPath + "/" + "instrgen_tls.go"` and write the accessor module into it;
`createOk` is the success of `os.Create` (the `log.Fatal` taken on failure
is modelled as `none`). -/
def WriteExtraFiles (pkg destPath : String) (createOk : Bool)
    (fs : FileSys) : Option FileSys :=
  if createOk then
    some (fsSet fs (destPath ++ "/" ++ "instrgen_tls.go") instrgenTlsSource)
  else none

/-- Go assignment token (`token.DEFINE` for `:=`, `token.ASSIGN` for `=`). -/
inductive GoTok where
  | DEFINE
  | ASSIGN
deriving DecidableEq, Repr

/-- Fragment of the Go expression AST handled by the rewriters:
identifiers, selector expressions, call expressions, type assertions, and
a collapsed `lit` for every other expression form (which the rewriters
neither inspect nor modify).  Function literals are not modelled: the
embedded files contain none. -/
inductive Expr where
  | ident (name : String)
  | sel (x : Expr) (selName : String)
  | call (fn : Expr) (args : List Expr)
  | typeAssert (x : Expr) (ty : Expr)
  | lit

mutual

/-- Decidable equality of expressions (spelled out because `deriving` does
not handle the nested `List Expr` field). -/
def exprDecEq : (a b : Expr) → Decidable (a = b)
  | .ident n, .ident m =>
    if h : n = m then .isTrue (by rw [h])
    else .isFalse (by intro hh; cases hh; exact h rfl)
  | .sel x s, .sel y t =>
    match exprDecEq x y with
    | .isTrue hx =>
      if h : s = t then .isTrue (by rw [hx, h])
      else .isFalse (by intro hh; cases hh; exact h rfl)
    | .isFalse hx => .isFalse (by intro hh; cases hh; exact hx rfl)
  | .call f a, .call g b =>
    match exprDecEq f g with
    | .isTrue hf =>
      match exprListDecEq a b with
      | .isTrue ha => .isTrue (by rw [hf, ha])
      | .isFalse ha => .isFalse (by intro hh; cases hh; exact ha rfl)
    | .isFalse hf => .isFalse (by intro hh; cases hh; exact hf rfl)
  | .typeAssert x t, .typeAssert y u =>
    match exprDecEq x y with
    | .isTrue hx =>
      match exprDecEq t u with
      | .isTrue ht => .isTrue (by rw [hx, ht])
      | .isFalse ht => .isFalse (by intro hh; cases hh; exact ht rfl)
    | .isFalse hx => .isFalse (by intro hh; cases hh; exact hx rfl)
  | .lit, .lit => .isTrue rfl
  | .ident _, .sel _ _ => .isFalse (by intro hh; cases hh)
  | .ident _, .call _ _ => .isFalse (by intro hh; cases hh)
  | .ident _, .typeAssert _ _ => .isFalse (by intro hh; cases hh)
  | .ident _, .lit => .isFalse (by intro hh; cases hh)
  | .sel _ _, .ident _ => .isFalse (by intro hh; cases hh)
  | .sel _ _, .call _ _ => .isFalse (by intro hh; cases hh)
  | .sel _ _, .typeAssert _ _ => .isFalse (by intro hh; cases hh)
  | .sel _ _, .lit => .isFalse (by intro hh; cases hh)
  | .call _ _, .ident _ => .isFalse (by intro hh; cases hh)
  | .call _ _, .sel _ _ => .isFalse (by intro hh; cases hh)
  | .call _ _, .typeAssert _ _ => .isFalse (by intro hh; cases hh)
  | .call _ _, .lit => .isFalse (by intro hh; cases hh)
  | .typeAssert _ _, .ident _ => .isFalse (by intro hh; cases hh)
  | .typeAssert _ _, .sel _ _ => .isFalse (by intro hh; cases hh)
  | .typeAssert _ _, .call _ _ => .isFalse (by intro hh; cases hh)
  | .typeAssert _ _, .lit => .isFalse (by intro hh; cases hh)
  | .lit, .ident _ => .isFalse (by intro hh; cases hh)
  | .lit, .sel _ _ => .isFalse (by intro hh; cases hh)
  | .lit, .call _ _ => .isFalse (by intro hh; cases hh)
  | .lit, .typeAssert _ _ => .isFalse (by intro hh; cases hh)

def exprListDecEq : (a b : List Expr) → Decidable (a = b)
  | [], [] => .isTrue rfl
  | [], _ :: _ => .isFalse (by intro hh; cases hh)
  | _ :: _, [] => .isFalse (by intro hh; cases hh)
  | x :: xs, y :: ys =>
    match exprDecEq x y with
    | .isTrue hx =>
      match exprListDecEq xs ys with
      | .isTrue hxs => .isTrue (by rw [hx, hxs])
      | .isFalse hxs => .isFalse (by intro hh; cases hh; exact hxs rfl)
    | .isFalse hx => .isFalse (by intro hh; cases hh; exact hx rfl)

end

instance : DecidableEq Expr := exprDecEq

/-- Fragment of the Go statement AST: assignments (first left-hand and
right-hand operands explicit — a typed Go `*ast.AssignStmt` always has at
least one of each, and the pruner reads `Lhs[0]`/`Rhs[0]`), expression
statements, defer statements (whose `Call` is a call expression), and a
collapsed `other`. -/
inductive Stmt where
  | assign (tok : GoTok) (lhs0 : Expr) (lhsRest : List Expr)
      (rhs0 : Expr) (rhsRest : List Expr)
  | exprStmt (x : Expr)
  | deferStmt (call : Expr)
  | other
deriving DecidableEq

/-- `*ast.Field` of a parameter list: names and type expression. -/
structure ParamField where
  names : List String
  ty : Expr
deriving DecidableEq

/-- Whether an expression is an `*ast.Ident` whose name carries the
synthetic `__atel_` marker (`strings.Contains(ident.Name, "__atel_")`). -/
def isAtelIdent : Expr → Bool
  | .ident n => strContains n "__atel_"
  | _ => false

/-- Removal firings of the parameter loop of `inspectFuncContent`
(src/instrgen/rewriters/runtime_rewriter.go lines 66-74) on one field: one
per name carrying the marker (the inner loop ranges over the field's
names, firing a removal for each match). -/
def fieldHits (f : ParamField) : Nat :=
  f.names.countP (fun n => strContains n "__atel_")

/-- Removal firings of the body-statement loop of `inspectFuncContent`
(runtime_rewriter.go lines 75-122) on one statement: the assign case can
fire on `Lhs[0]` and again on `Rhs[0]`; the expression-statement case on
`SetTracerProvider` and again on `InstrgenSetTls`; the defer case on a
`Shutdown` selector with an `rtlib` receiver and again on a marker-carrying
receiver identifier. -/
def stmtHits : Stmt → Nat
  | .assign _ lhs0 _ rhs0 _ =>
      (if isAtelIdent lhs0 then 1 else 0) + (if isAtelIdent rhs0 then 1 else 0)
  | .exprStmt x =>
      match x with
      | .call (.sel _ selName) _ =>
          (if strContains selName "SetTracerProvider" then 1 else 0) +
          (if strContains selName "InstrgenSetTls" then 1 else 0)
      | _ => 0
  | .deferStmt c =>
      match c with
      | .call (.sel sx selName) _ =>
          (if strContains selName "Shutdown" &&
              (match sx with | .ident n => strContains n "rtlib" | _ => false)
            then 1 else 0) +
          (match sx with
           | .ident n => if strContains n "__atel_" then 1 else 0
           | _ => 0)
      | _ => 0
  | .other => 0

/-- Firing of the first argument-removal loop of `OtelPruner.Rewrite`
(runtime_rewriter.go lines 150-157): the argument is a marker-carrying
identifier. -/
def argHits1 (e : Expr) : Nat := if isAtelIdent e then 1 else 0

/-- Firing of the second argument-removal loop (lines 158-169): the
argument is a call whose function is a selector on a marker-carrying
identifier. -/
def argHits2 : Expr → Nat
  | .call (.sel (.ident n) _) _ => if strContains n "__atel_" then 1 else 0
  | _ => 0

/-- The index-walking removal loop shared by every removal site of the
pruner (`for index := 0; ...; index++ { ... remove(slice, index); index--
... }`), as a zipper: `done` is the already-scanned prefix and
`index = done.length`.  When the current element fires `hits` removal
branches, the source removes at the current index and then `hits - 1`
further times at successively decremented indices, deleting the last
`hits - 1` elements of the scanned prefix; a negative index is a Go
slice-bounds panic, modelled as `none`. -/
def pruneLoop {α : Type} (hits : α → Nat) :
    List α → List α → Option (List α)
  | done, [] => some done
  | done, x :: todo =>
    let k := hits x
    if k = 0 then pruneLoop hits (done ++ [x]) todo
    else if k - 1 ≤ done.length then
      pruneLoop hits (done.take (done.length - (k - 1))) todo
    else none

mutual

/-- Effect of `OtelPruner.Rewrite` (runtime_rewriter.go lines 142-198) on
one expression: `ast.Inspect` applies the two argument-removal loops to
every call expression and then descends into the (already modified)
children.  Both loops are 0/1-valued index walks, hence equal to filters
(`pruneLoop_unit_filter`), and their sequential composition keeps exactly
the arguments on which neither fires; they are fused here with the descent
into the surviving arguments to keep the recursion structural. -/
def pruneExpr : Expr → Expr
  | .ident n => .ident n
  | .lit => .lit
  | .sel x s => .sel (pruneExpr x) s
  | .typeAssert x ty => .typeAssert (pruneExpr x) (pruneExpr ty)
  | .call fn args => .call (pruneExpr fn) (pruneCallArgs args)

/-- The two argument loops fused with the descent into the surviving
arguments: an argument is kept iff neither loop fires on it. -/
def pruneCallArgs : List Expr → List Expr
  | [] => []
  | e :: es =>
    if argHits1 e == 0 && argHits2 e == 0 then pruneExpr e :: pruneCallArgs es
    else pruneCallArgs es

end

/-- Map of `pruneExpr` over an expression list that is not a call's
argument slice (assignment operands): `ast.Inspect` descends into each
element but removes none. -/
def pruneExprAll : List Expr → List Expr
  | [] => []
  | e :: es => pruneExpr e :: pruneExprAll es

/-- Descent of `ast.Inspect` into the subexpressions of one statement that
survived the body loop. -/
def pruneStmt : Stmt → Stmt
  | .assign tok l0 ls r0 rs =>
      .assign tok (pruneExpr l0) (pruneExprAll ls) (pruneExpr r0) (pruneExprAll rs)
  | .exprStmt x => .exprStmt (pruneExpr x)
  | .deferStmt c => .deferStmt (pruneExpr c)
  | .other => .other

mutual

/-- No prunable call-argument artifact anywhere in an expression: every
call's arguments escape both argument-removal loops and every
subexpression is clean — precisely the expressions `pruneExpr` fixes. -/
def exprClean : Expr → Bool
  | .ident _ => true
  | .lit => true
  | .sel x _ => exprClean x
  | .typeAssert x ty => exprClean x && exprClean ty
  | .call fn args => exprClean fn && exprArgsClean args

/-- Cleanliness of a call's argument slice. -/
def exprArgsClean : List Expr → Bool
  | [] => true
  | e :: es =>
    (argHits1 e == 0) && (argHits2 e == 0) && exprClean e && exprArgsClean es

end

/-- Cleanliness of an expression list that is not an argument slice. -/
def exprAllClean : List Expr → Bool
  | [] => true
  | e :: es => exprClean e && exprAllClean es

/-- A statement neither fires the body-statement loop nor contains a
prunable call argument. -/
def stmtClean (s : Stmt) : Bool :=
  (stmtHits s == 0) &&
  (match s with
   | .assign _ l0 ls r0 rs =>
       exprClean l0 && exprAllClean ls && exprClean r0 && exprAllClean rs
   | .exprStmt x => exprClean x
   | .deferStmt c => exprClean c
   | .other => true)

/-- `inspectFuncContent` from runtime_rewriter.go lines 65-123: the
parameter-field loop followed by the body-statement loop. -/
def inspectFuncContent (params : List ParamField) (body : List Stmt) :
    Option (List ParamField × List Stmt) :=
  match pruneLoop fieldHits [] params with
  | none => none
  | some ps =>
    match pruneLoop stmtHits [] body with
    | none => none
    | some bs => some (ps, bs)

/-- A method entry of an interface `*ast.TypeSpec`: a `*ast.FuncType` with
its parameter fields, or another type expression (skipped with `continue`
by the pruner). -/
inductive IfaceMethod where
  | funcTy (params : List ParamField)
  | otherTy
deriving DecidableEq

/-- Top-level declarations of a file as the rewriters see them. -/
inductive Decl where
  | funcDecl (name : String) (params : List ParamField) (body : List Stmt)
  | ifaceDecl (name : String) (methods : List IfaceMethod)
  | otherDecl
deriving DecidableEq

/-- A file: import block (alias × path pairs) and declarations. -/
structure GoFile where
  imports : List (String × String)
  decls : List Decl
deriving DecidableEq

/-- An interface method entry carries no marker-carrying parameter
field. -/
def methodClean : IfaceMethod → Bool
  | IfaceMethod.funcTy ps => ps.all (fun f => fieldHits f == 0)
  | IfaceMethod.otherTy => true

/-- A declaration carries no synthetic artifact the pruner removes. -/
def declClean : Decl → Bool
  | .funcDecl _ params body =>
      params.all (fun f => fieldHits f == 0) && body.all stmtClean
  | .ifaceDecl _ methods => methods.all methodClean
  | .otherDecl => true

/-- A file carries no synthetic artifact: clean declarations and none of
the three synthetic named imports. -/
def fileClean (f : GoFile) : Bool :=
  f.decls.all declClean &&
  !(f.imports.any (fun q => q.1 == "__atel_context" && q.2 == "context")) &&
  !(f.imports.any (fun q =>
      q.1 == "__atel_otel" && q.2 == "go.opentelemetry.io/otel")) &&
  !(f.imports.any (fun q => q.1 == "__atel_runtime" && q.2 == "runtime"))

/-- `astutil.DeleteNamedImport`: drop the import spec(s) matching the
(alias, path) pair. -/
def deleteNamedImport (name path : String)
    (imps : List (String × String)) : List (String × String) :=
  imps.filter (fun q => !(q.1 == name && q.2 == path))

/-- `astutil.AddNamedImport`: add the (alias, path) import unless already
present. -/
def addNamedImport (name path : String)
    (imps : List (String × String)) : List (String × String) :=
  if imps.any (fun q => q.1 == name && q.2 == path) then imps
  else imps ++ [(name, path)]

/-- The parameter-field loop applied to one interface method entry
(runtime_rewriter.go lines 171-195): `*ast.FuncType` methods get the loop
on their parameter fields, other entries are skipped with `continue`. -/
def pruneMethod : IfaceMethod → Option IfaceMethod
  | IfaceMethod.funcTy params =>
      (pruneLoop fieldHits [] params).map IfaceMethod.funcTy
  | IfaceMethod.otherTy => some IfaceMethod.otherTy

/-- Effect of `OtelPruner.Rewrite` on one declaration: function
declarations get `inspectFuncContent` on parameters and body, and the
traversal then descends into the pruned body's statements; interface type
specifications get the parameter-field loop on every `*ast.FuncType`
method. -/
def pruneDecl : Decl → Option Decl
  | .funcDecl name params body =>
    match inspectFuncContent params body with
    | none => none
    | some (ps, bs) => some (.funcDecl name ps (bs.map pruneStmt))
  | .ifaceDecl name methods =>
    match methods.mapM pruneMethod with
    | none => none
    | some ms => some (.ifaceDecl name ms)
  | .otherDecl => some .otherDecl

/-- `OtelPruner.Rewrite` from runtime_rewriter.go lines 142-198: prune
every declaration and delete the three synthetic named imports (in source
order: `__atel_context`, `__atel_otel`, `__atel_runtime`). -/
def OtelPrunerRewrite (f : GoFile) : Option GoFile :=
  match f.decls.mapM pruneDecl with
  | none => none
  | some ds =>
    some { imports :=
             deleteNamedImport "__atel_runtime" "runtime"
               (deleteNamedImport "__atel_otel" "go.opentelemetry.io/otel"
                 (deleteNamedImport "__atel_context" "context" f.imports)),
           decls := ds }

/-- A concrete instrumented file exercising every removal site of the
pruner more than once: two marker-carrying parameter fields, two
prunable body statements (a marker assignment and the `InstrgenSetTls`
call), two prunable call arguments inside a surviving statement, a
marker-carrying interface method parameter, and the three synthetic
named imports. -/
def sampleDirtyFile : GoFile :=
  { imports := [("__atel_context", "context"), ("fmt", "fmt"),
                ("__atel_otel", "go.opentelemetry.io/otel"),
                ("__atel_runtime", "runtime")],
    decls :=
      [ .funcDecl "main"
          [⟨["__atel_tracing_ctx"], .ident "Context"⟩,
           ⟨["x", "__atel_extra"], .ident "int"⟩]
          [ .assign .ASSIGN (.ident "_") []
              (.ident "__atel_child_tracing_ctx") [],
            .exprStmt (.call (.sel (.ident "__atel_runtime") "InstrgenSetTls")
              [.ident "__atel_child_tracing_ctx"]),
            .exprStmt (.call (.sel (.ident "fmt") "Println")
              [.ident "__atel_child_tracing_ctx", .ident "x",
               .call (.sel (.ident "__atel_span") "End") []]),
            .other ],
        .ifaceDecl "I"
          [.funcTy [⟨["__atel_tracing_ctx"], .ident "Context"⟩,
                    ⟨["n"], .ident "int"⟩],
           .otherTy],
        .otherDecl ] }

/-- The result of one pruning pass over `sampleDirtyFile`: every synthetic
element is gone. -/
def samplePrunedFile : GoFile :=
  { imports := [("fmt", "fmt")],
    decls :=
      [ .funcDecl "main" []
          [ .exprStmt (.call (.sel (.ident "fmt") "Println") [.ident "x"]),
            .other ],
        .ifaceDecl "I" [.funcTy [⟨["n"], .ident "int"⟩], .otherTy],
        .otherDecl ] }

/-- `makeInitStmts` from runtime_rewriter.go lines 228-419: the statements
injected at the root function, in source order (`stmts := []ast.Stmt{s1,
s2, s3, s4, s5, childTracingSupress, s6, s7}`): tracer-state definition,
deferred shutdown, global provider registration, background context, span
start, the blank-identifier use of the child context, the deferred span
end, and the goroutine-local store. -/
def makeInitStmts (name : String) : List Stmt :=
  [ .assign .DEFINE (.ident "__atel_ts") []
      (.call (.sel (.ident "rtlib") "NewTracingState") []) [],
    .deferStmt (.call (.sel (.ident "rtlib") "Shutdown") [.ident "__atel_ts"]),
    .exprStmt (.call (.sel (.ident "__atel_otel") "SetTracerProvider")
      [.sel (.ident "__atel_ts") "Tp"]),
    .assign .DEFINE (.ident "__atel_ctx") []
      (.call (.sel (.ident "__atel_context") "Background") []) [],
    .assign .DEFINE (.ident "__atel_child_tracing_ctx") [.ident "__atel_span"]
      (.call (.sel (.call (.sel (.ident "__atel_otel") "Tracer")
          [.ident ("\"" ++ name ++ "\"")]) "Start")
        [.ident "__atel_ctx", .ident ("\"" ++ name ++ "\"")]) [],
    .assign .ASSIGN (.ident "_") [] (.ident "__atel_child_tracing_ctx") [],
    .deferStmt (.call (.sel (.ident "__atel_span") "End") []),
    .exprStmt (.call (.sel (.ident "__atel_runtime") "InstrgenSetTls")
      [.ident "__atel_child_tracing_ctx"]) ]

/-- `makeSpanStmts` from runtime_rewriter.go lines 421-540: the non-root
preamble — goroutine-local retrieval with type assertion, span start,
goroutine-local store, deferred span end. -/
def makeSpanStmts (name paramName : String) : List Stmt :=
  [ .assign .DEFINE (.ident "__atel_tracing_ctx") []
      (.typeAssert (.call (.sel (.ident "__atel_runtime") "InstrgenGetTls") [])
        (.sel (.ident "__atel_context") "Context")) [],
    .assign .DEFINE (.ident "__atel_child_tracing_ctx") [.ident "__atel_span"]
      (.call (.sel (.call (.sel (.ident "__atel_otel") "Tracer")
          [.ident ("\"" ++ name ++ "\"")]) "Start")
        [.ident paramName, .ident ("\"" ++ name ++ "\"")]) [],
    .exprStmt (.call (.sel (.ident "__atel_runtime") "InstrgenSetTls")
      [.ident "__atel_child_tracing_ctx"]),
    .deferStmt (.call (.sel (.ident "__atel_span") "End") []) ]

/-- `BasicRewriter.Rewrite` from runtime_rewriter.go lines 559-573: every
function declaration of the file receives a prepended preamble — the root
preamble for `main` of package `main`, the span preamble otherwise — and
each visit (re)adds the three synthetic named imports.  No call-graph or
reachability information is consulted. -/
def BasicRewriterRewrite (pkg : String) (f : GoFile) : GoFile :=
  f.decls.foldl
    (fun acc d =>
      match d with
      | .funcDecl name params body =>
        let body' :=
          if pkg == "main" && name == "main" then makeInitStmts name ++ body
          else makeSpanStmts name "__atel_tracing_ctx" ++ body
        { imports :=
            addNamedImport "__atel_runtime" "runtime"
              (addNamedImport "__atel_otel" "go.opentelemetry.io/otel"
                (addNamedImport "__atel_context" "context" acc.imports)),
          decls := acc.decls ++ [.funcDecl name params body'] }
      | d => { acc with decls := acc.decls ++ [d] })
    { imports := f.imports, decls := [] }

/-- `isFunPartOfCallGraph` from src/unnamed/part_004 lines 23-36: linear
scan of the backward call graph comparing `TypeHash`es of the keys and of
the recorded callers. -/
def isFunPartOfCallGraph (f : FuncDescriptor) (callgraph : CallGraph) : Bool :=
  callgraph.any (fun p =>
    p.1.TypeHash == f.TypeHash || p.2.any (fun e => f.TypeHash == e.TypeHash))

/-- Modelled from the spec: the repository's `isPath` reachability test
(declared outside the files under src/): whether a path exists in the
backward call graph from `current` up to `goal`, depth-first with a
visited set guarding against cycles.  The recursion is bounded by an
explicit fuel argument. -/
def isPath (cg : CallGraph) : Nat → FuncDescriptor → FuncDescriptor →
    List FuncDescriptor → Bool
  | 0, _, _, _ => false
  | fuel + 1, current, goal, visited =>
    if current = goal then true
    else
      (cgLookup cg current).any (fun child =>
        if Contains visited child then false
        else isPath cg fuel child goal (child :: visited))

/-- `isPath` as the pass invokes it: fresh visited set, fuel exceeding the
number of descriptors stored in the graph (the visited set keeps any
search within that bound). -/
def isPathTop (cg : CallGraph) (current goal : FuncDescriptor) : Bool :=
  isPath cg (cg.length + (cg.map (fun p => p.2.length)).sum + 1)
    current goal []

/-- `importaction` and `Import` from src/unnamed/part_003 lines 46-62 (the
struct is named `ImportDirective` here because `Import` is taken by the
ambient library). -/
inductive ImportAction where
  | Add
  | Remove
deriving DecidableEq, Repr

/-- An import directive `{NamedPackage, Package, ImportAction}`. -/
structure ImportDirective where
  NamedPackage : String
  Package : String
  Action : ImportAction
deriving DecidableEq, Repr

/-- The resolved selection data (`types.Selection` plus the use of the
selected identifier) that the selector-call branch of the pass reads:
`obj.Recv().String()`, `obj.Obj().Name()`, and the type string of the use
when resolved. -/
structure SelInfo where
  recvString : String
  objName : String
  useType : Option String
deriving DecidableEq, Repr

/-- Preorder node events of one file, as the `ast.Inspect` of
`ContextPropagationPass.Execute` (src/unnamed/part_004) visits them:
function declarations with their resolved signature data (declarations
whose `GInfo.Defs` entry is nil are cut off with their subtree by the
source and contribute no events), identifier-callee calls with the type of
the `GInfo.Uses` entry when resolved, selector-callee calls with their
`GInfo.Selections` data when resolved, and `otherNode` for everything
else (the `TypeSpec` case of this pass is commented out in the source). -/
inductive PassNode where
  | funcDecl (name recvStr ftype : String) (params : List ParamField)
  | callIdent (identName : String) (useType : Option String) (args : List Expr)
  | callSel (sel : Option SelInfo) (args : List Expr)
  | otherNode
deriving DecidableEq

/-- The fields of `PackageAnalysis` (src/unnamed/part_003 lines 34-44)
consumed by `ContextPropagationPass.Execute`. -/
structure PassAnalysis where
  RootFunctions : List FuncDescriptor
  FuncDecls : List FuncDescriptor
  Callgraph : CallGraph
deriving Repr

/-- The `__atel_tracing_ctx __atel_context.Context` parameter field the
pass prepends (src/unnamed/part_004 lines 118-132). -/
def ctxField : ParamField :=
  ⟨["__atel_tracing_ctx"], .sel (.ident "__atel_context") "Context"⟩

/-- The `__atel_child_tracing_ctx` argument identifier (lines 115-117). -/
def ctxArg : Expr := .ident "__atel_child_tracing_ctx"

/-- The synthesized `__atel_context.TODO()` empty-context literal (lines
59-70). -/
def contextTodo : Expr := .call (.sel (.ident "__atel_context") "TODO") []

/-- `emitEmptyContext` from src/unnamed/part_004 lines 52-88, restricted
to its effect on the call's argument slice (the `addImports` flag it
raises is threaded by the caller): inside a function declaration that is
root-reachable the caller's child context is prepended, otherwise —
including outside any function declaration (`currentFun` still the zero
descriptor) — `__atel_context.TODO()` is.  Reads `RootFunctions[0]`;
`none` models the Go index panic on an empty root slice. -/
def emitEmptyContext (analysis : PassAnalysis)
    (currentFun : FuncDescriptor) (args : List Expr) : Option (List Expr) :=
  if currentFun ≠ default then
    match analysis.RootFunctions[0]? with
    | none => none
    | some root =>
      if isPathTop analysis.Callgraph currentFun root then
        some (ctxArg :: args)
      else some (contextTodo :: args)
  else some (contextTodo :: args)

/-- `emitCallExpr` from src/unnamed/part_004 lines 89-113: an
identifier-callee call is rewritten (via `emitEmptyContext`) only when the
use resolves, the callee descriptor is a known declaration, and the callee
is root-reachable; the returned flag is whether `addImports` was raised. -/
def emitCallExpr (pkg : String) (analysis : PassAnalysis)
    (currentFun : FuncDescriptor) (identName : String)
    (useType : Option String) (args : List Expr) :
    Option (List Expr × Bool) :=
  match useType with
  | none => some (args, false)
  | some ftype =>
    let funcCall : FuncDescriptor := ⟨pkg, "", identName, ftype⟩
    if Contains analysis.FuncDecls funcCall then
      match analysis.RootFunctions[0]? with
      | none => none
      | some root =>
        if isPathTop analysis.Callgraph funcCall root then
          (emitEmptyContext analysis currentFun args).map (fun a => (a, true))
        else some (args, false)
    else some (args, false)

/-- The selector-callee branch of the pass (src/unnamed/part_004 lines
170-200), parallel to `emitCallExpr`: receiver string prefixed with a dot
when nonempty, use type string empty when unresolved. -/
def emitCallSel (pkg : String) (analysis : PassAnalysis)
    (currentFun : FuncDescriptor) (s : SelInfo) (args : List Expr) :
    Option (List Expr × Bool) :=
  let ftypeStr := s.useType.getD ""
  let recvStr := if s.recvString.length > 0 then "." ++ s.recvString else ""
  let funcCall : FuncDescriptor := ⟨pkg, recvStr, s.objName, ftypeStr⟩
  if Contains analysis.FuncDecls funcCall then
    match analysis.RootFunctions[0]? with
    | none => none
    | some root =>
      if isPathTop analysis.Callgraph funcCall root then
        (emitEmptyContext analysis currentFun args).map (fun a => (a, true))
      else some (args, false)
  else some (args, false)

/-- The `*ast.FuncDecl` case of the pass (src/unnamed/part_004 lines
134-164): a call-graph member that is not a root and is root-reachable
gets the context parameter field prepended to its signature. -/
def ctxPropFuncDecl (pkg : String) (analysis : PassAnalysis)
    (name recvStr ftype : String) (params : List ParamField) :
    Option (List ParamField × Bool) :=
  let f : FuncDescriptor := ⟨pkg, recvStr, name, ftype⟩
  if ¬ isFunPartOfCallGraph f analysis.Callgraph then some (params, false)
  else if Contains analysis.RootFunctions f then some (params, false)
  else
    match analysis.RootFunctions[0]? with
    | none => none
    | some root =>
      if isPathTop analysis.Callgraph f root then
        some (ctxField :: params, true)
      else some (params, false)

/-- One step of the `ast.Inspect` callback of
`ContextPropagationPass.Execute` (src/unnamed/part_004 lines 114-229):
returns the updated `currentFun`, whether `addImports` was raised on this
node, and the transformed node. -/
def ctxPropNode (pkg : String) (analysis : PassAnalysis)
    (currentFun : FuncDescriptor) :
    PassNode → Option (FuncDescriptor × Bool × PassNode)
  | .funcDecl name recvStr ftype params =>
    (ctxPropFuncDecl pkg analysis name recvStr ftype params).map
      (fun r => (⟨pkg, recvStr, name, ftype⟩, r.2,
        .funcDecl name recvStr ftype r.1))
  | .callIdent identName useType args =>
    (emitCallExpr pkg analysis currentFun identName useType args).map
      (fun r => (currentFun, r.2, .callIdent identName useType r.1))
  | .callSel s args =>
    match s with
    | none => some (currentFun, false, .callSel none args)
    | some si =>
      (emitCallSel pkg analysis currentFun si args).map
        (fun r => (currentFun, r.2, .callSel (some si) r.1))
  | .otherNode => some (currentFun, false, .otherNode)

/-- The fold of the pass over the node events of a file, threading
`currentFun` (initially the zero descriptor) and the `addImports` flag. -/
def ctxPropNodes (pkg : String) (analysis : PassAnalysis) :
    FuncDescriptor → Bool → List PassNode → Option (List PassNode × Bool)
  | _, addImp, [] => some ([], addImp)
  | currentFun, addImp, n :: ns =>
    match ctxPropNode pkg analysis currentFun n with
    | none => none
    | some (cf, a, n2) =>
      match ctxPropNodes pkg analysis cf (addImp || a) ns with
      | none => none
      | some (ns2, addImp2) => some (n2 :: ns2, addImp2)

/-- A file as the context-propagation pass and the engine see it: the
file's import block plus the preorder node events. -/
structure PassFile where
  imports : List (String × String)
  nodes : List PassNode
deriving DecidableEq

/-- `ContextPropagationPass.Execute` (src/unnamed/part_004 lines 43-234):
rewrite the node events; when any rewrite raised `addImports`, request the
`__atel_context` named import of `context`. -/
def ContextPropagationExecute (pkg : String) (analysis : PassAnalysis)
    (f : PassFile) : Option (PassFile × List ImportDirective) :=
  match ctxPropNodes pkg analysis default false f.nodes with
  | none => none
  | some (ns, addImp) =>
    some ({ f with nodes := ns },
      if addImp then [⟨"__atel_context", "context", ImportAction.Add⟩] else [])

/-- The `currentFun` state of the pass before processing position `i`,
starting from state `cf`: the descriptor of the last function declaration
among the first `i` node events (`cf` when there is none; the pass starts
from the zero descriptor `default`). -/
def currentFunAt (pkg : String) (cf : FuncDescriptor)
    (nodes : List PassNode) (i : Nat) : FuncDescriptor :=
  (nodes.take i).foldl
    (fun cf n =>
      match n with
      | PassNode.funcDecl name recvStr ftype _ => ⟨pkg, recvStr, name, ftype⟩
      | _ => cf)
    cf

/-- `addImports` from src/unnamed/part_003 lines 80-96 on a `PassFile`
file's import block: `Add` adds the (alias, path) pair unless present,
`Remove`
deletes it (the passes always carry a nonempty alias, so the unaliased
`AddImport`/`DeleteImport` variants coincide with the named ones on this
model). -/
def applyImportDirectives (imps : List ImportDirective) (f : PassFile) :
    PassFile :=
  imps.foldl
    (fun acc i =>
      match i.Action with
      | ImportAction.Add =>
          { acc with imports := addNamedImport i.NamedPackage i.Package acc.imports }
      | ImportAction.Remove =>
          { acc with imports := deleteNamedImport i.NamedPackage i.Package acc.imports })
    f

/-- Failures of the engine: `ioErr` for `os.Create` / `printer.Fprint` /
`os.Rename` errors (returned to the caller), `idxFault` for the
`RootFunctions[0]` index panic inside a pass. -/
inductive EngineErr where
  | ioErr
  | idxFault
deriving DecidableEq, Repr

/-- A source file as the engine iterates it: name, whether its position
string matches the package pattern, its tree, and the success of the three
fallible file-system operations on it. -/
structure EngineFile (α : Type) where
  name : String
  selected : Bool
  tree : α
  createOk : Bool
  printOk : Bool
  renameOk : Bool
deriving DecidableEq

/-- Performed file-system operations: side-file creation, serialization of
a tree into a file, and rename of the side file over the original. -/
inductive FsOp (α : Type) where
  | created (path : String)
  | wrote (path : String) (tree : α)
  | renamed (oldPath newPath : String)
deriving DecidableEq

/-- `PackageAnalysis.Execute` from src/unnamed/part_003 lines 99-142: for
every file selected by the package pattern — create the side file
(`name + fileSuffix`); with zero root functions serialize the tree
unchanged into it and continue (no pass, no rename, no entry in the
returned file set); otherwise run the pass, apply its import directives,
serialize, and, outside debug mode, rename the side file over the
original and record the file in the returned set.  Any create/serialize/
rename failure aborts the whole call with the error; operations already
performed stay in the returned trace. -/
def ExecuteEngine {α : Type}
    (pass : α → Option (α × List ImportDirective))
    (applyImps : List ImportDirective → α → α)
    (roots : List FuncDescriptor) (debug : Bool) (fileSuffix : String) :
    List (EngineFile α) → List (FsOp α) →
    List (FsOp α) × Except EngineErr (List α)
  | [], ops => (ops, Except.ok [])
  | f :: fs, ops =>
    if ¬ f.selected then
      ExecuteEngine pass applyImps roots debug fileSuffix fs ops
    else if ¬ f.createOk then (ops, Except.error EngineErr.ioErr)
    else
      let ops1 := ops ++ [FsOp.created (f.name ++ fileSuffix)]
      if roots.isEmpty then
        if ¬ f.printOk then (ops1, Except.error EngineErr.ioErr)
        else
          ExecuteEngine pass applyImps roots debug fileSuffix fs
            (ops1 ++ [FsOp.wrote (f.name ++ fileSuffix) f.tree])
      else
        match pass f.tree with
        | none => (ops1, Except.error EngineErr.idxFault)
        | some (tree1, imps) =>
          let tree2 := applyImps imps tree1
          if ¬ f.printOk then (ops1, Except.error EngineErr.ioErr)
          else
            let ops2 := ops1 ++ [FsOp.wrote (f.name ++ fileSuffix) tree2]
            if debug then
              match ExecuteEngine pass applyImps roots debug fileSuffix fs ops2 with
              | (ops3, Except.ok trees) => (ops3, Except.ok (tree2 :: trees))
              | (ops3, Except.error e) => (ops3, Except.error e)
            else
              if ¬ f.renameOk then (ops2, Except.error EngineErr.ioErr)
              else
                let ops3 := ops2 ++
                  [FsOp.renamed (f.name ++ fileSuffix) f.name]
                match ExecuteEngine pass applyImps roots debug fileSuffix fs ops3 with
                | (ops4, Except.ok trees) => (ops4, Except.ok (tree2 :: trees))
                | (ops4, Except.error e) => (ops4, Except.error e)

namespace CallGraphSound

/-- The invariant of C1: every binding of the graph maps a declared callee
to a duplicate-free caller slice. -/
def Inv (funcDecls : List FuncDescriptor) (g : CallGraph) : Prop :=
  ∀ p ∈ g, Contains funcDecls p.1 = true ∧ p.2.Nodup

theorem inv_nil (funcDecls : List FuncDescriptor) : Inv funcDecls [] := by
  intro p hp; cases hp

theorem cgLookup_nodup {funcDecls : List FuncDescriptor} {g : CallGraph}
    (h : Inv funcDecls g) (k : FuncDescriptor) : (cgLookup g k).Nodup := by
  unfold cgLookup
  cases hf : g.find? (fun p => decide (p.1 = k)) with
  | none => simp
  | some p => exact (h p (List.mem_of_find?_eq_some hf)).2

theorem inv_store {funcDecls : List FuncDescriptor} {g : CallGraph}
    (h : Inv funcDecls g) {k : FuncDescriptor} {v : List FuncDescriptor}
    (hk : Contains funcDecls k = true) (hv : v.Nodup) :
    Inv funcDecls (cgStore g k v) := by
  intro p hp
  unfold cgStore at hp
  split at hp
  · rcases List.mem_map.mp hp with ⟨q, hq, hqp⟩
    by_cases hqk : q.1 = k
    · simp only [hqk, if_pos] at hqp
      subst hqp; exact ⟨hk, hv⟩
    · simp only [hqk, if_neg, not_false_iff] at hqp
      subst hqp; exact h q hq
  · rcases List.mem_append.mp hp with hq | hq
    · exact h p hq
    · simp only [List.mem_singleton] at hq
      subst hq; exact ⟨hk, hv⟩

theorem inv_add {funcDecls : List FuncDescriptor} {g : CallGraph}
    (h : Inv funcDecls g) (funcCall currentFun : FuncDescriptor) :
    Inv funcDecls (addFuncCallToCallGraph funcCall currentFun funcDecls g) := by
  unfold addFuncCallToCallGraph
  split
  · exact h
  · next hnotin =>
    split
    · next hdecl =>
      refine inv_store h hdecl ?_
      refine List.Nodup.append (cgLookup_nodup h funcCall) (List.nodup_singleton _) ?_
      intro a ha hb
      simp only [List.mem_singleton] at hb
      have ha' : currentFun ∈ cgLookup g funcCall := hb ▸ ha
      have : Contains (cgLookup g funcCall) currentFun = true := by
        unfold Contains
        exact List.any_eq_true.mpr ⟨currentFun, ha', by simp⟩
      exact hnotin this
    · exact h

theorem inv_fold (funcDecls : List FuncDescriptor)
    (events : List (FuncDescriptor × FuncDescriptor)) (g : CallGraph)
    (h : Inv funcDecls g) :
    Inv funcDecls
      (events.foldl (fun g e => addFuncCallToCallGraph e.1 e.2 funcDecls g) g) := by
  induction events generalizing g with
  | nil => exact h
  | cons e es ih => exact ih _ (inv_add h e.1 e.2)

end CallGraphSound

/-- C1: for every call edge recorded by the call-graph builder, the callee
descriptor is a known function declaration of the scanned package set, and
each callee's caller slice is duplicate-free (a callee→caller edge is added
at most once, regardless of how many call sites produce it). -/
theorem buildCallGraph_sound_dedup (funcDecls : List FuncDescriptor)
    (events : List (FuncDescriptor × FuncDescriptor))
    (p : FuncDescriptor × List FuncDescriptor)
    (hp : p ∈ buildCallGraphEvents funcDecls events) :
    Contains funcDecls p.1 = true ∧ p.2.Nodup :=
  CallGraphSound.inv_fold funcDecls events []
    (CallGraphSound.inv_nil funcDecls) p hp

/-- Witness for C1 at a concrete input: two call sites `main -> doWork` plus
a call to an undeclared callee; the built graph has the single deduplicated
edge and its callee is declared. -/
theorem buildCallGraph_sound_dedup_witness :
    ((⟨"main", "", "doWork", "func()"⟩ : FuncDescriptor),
        ([⟨"main", "", "main", "func()"⟩] : List FuncDescriptor)) ∈
        buildCallGraphEvents
          ([⟨"main", "", "doWork", "func()"⟩] : List FuncDescriptor)
          ([(⟨"main", "", "doWork", "func()"⟩, ⟨"main", "", "main", "func()"⟩),
            (⟨"main", "", "doWork", "func()"⟩, ⟨"main", "", "main", "func()"⟩),
            (⟨"main", "", "undecl", "func()"⟩, ⟨"main", "", "main", "func()"⟩)] :
            List (FuncDescriptor × FuncDescriptor)) ∧
      Contains [⟨"main", "", "doWork", "func()"⟩]
          (⟨"main", "", "doWork", "func()"⟩ : FuncDescriptor) = true ∧
      ([⟨"main", "", "main", "func()"⟩] : List FuncDescriptor).Nodup := by
  refine ⟨by decide, ?_⟩
  exact buildCallGraph_sound_dedup
    [⟨"main", "", "doWork", "func()"⟩]
    [(⟨"main", "", "doWork", "func()"⟩, ⟨"main", "", "main", "func()"⟩),
     (⟨"main", "", "doWork", "func()"⟩, ⟨"main", "", "main", "func()"⟩),
     (⟨"main", "", "undecl", "func()"⟩, ⟨"main", "", "main", "func()"⟩)]
    (⟨"main", "", "doWork", "func()"⟩, [⟨"main", "", "main", "func()"⟩])
    (by decide)

namespace IfaceResolution

/-- One step of the `getInterfaceNameForReceiver` loop. -/
theorem fold_characterized (recv : RecvVar) (interfaces : List TypesObject)
    (acc : String) :
    interfaces.foldl
        (fun recvInterface obj =>
          if obj.underlyingIsInterface then
            if implementsIface recv obj && !(isAny obj) then "." ++ obj.typeStr
            else recvInterface
          else recvInterface) acc =
      match interfaces.reverse.find?
          (fun o => o.underlyingIsInterface &&
            (implementsIface recv o && !(isAny o))) with
      | some o => "." ++ o.typeStr
      | none => acc := by
  induction interfaces using List.reverseRecOn generalizing acc with
  | nil => simp
  | append_singleton l a ih =>
    rw [List.foldl_append, List.reverse_append, List.reverse_singleton,
      List.singleton_append]
    simp only [List.foldl_cons, List.foldl_nil]
    by_cases h1 : a.underlyingIsInterface = true
    · by_cases h2 : (implementsIface recv a && !(isAny a)) = true
      · rw [List.find?_cons_of_pos _ (by simp [h1, h2])]
        simp [h1, h2]
      · rw [List.find?_cons_of_neg _ (by simp [h1, Bool.not_eq_true _ ▸ h2])]
        rw [if_pos h1, if_neg h2]
        exact ih acc
    · rw [List.find?_cons_of_neg _ (by simp [Bool.not_eq_true _ ▸ h1])]
      rw [if_neg h1]
      exact ih acc

end IfaceResolution

/-- C8 counterexample: a declared structurally-empty interface whose type
string is not `any` (its go/types printed underlying string is
`interface{}`) is credited to a receiver by `getInterfaceNameForReceiver`,
and `findFuncDecls` consequently produces an interface-keyed descriptor for
that empty interface — contradicting the claim that no receiver is ever
credited as implementing the empty interface. -/
theorem ifaceResolution_empty_iface_cex :
    getInterfaceNameForReceiver
        [⟨"main.Empty", "interface\x7b\x7d", true, []⟩]
        ⟨"main.Handler", ["Handle"]⟩ = ".main.Empty" ∧
      (⟨"main.Empty", "interface\x7b\x7d", true, []⟩ : TypesObject).methods = [] ∧
      (⟨"main", ".main.Empty", "Handle", "func()"⟩ : FuncDescriptor) ∈
        findFuncDeclsEntry "main"
          [⟨"main.Empty", "interface\x7b\x7d", true, []⟩]
          (some ⟨"main.Handler", ["Handle"]⟩) "Handle" "func()" := by
  decide

/-- C8 amended: the interface-keyed result of `getInterfaceNameForReceiver`
is produced for the last interface in iteration order that the receiver
structurally satisfies and that is not spelled or aliased `any` (type
string and underlying string both differ from `"any"`); structural
emptiness of the interface plays no role in the exclusion. -/
theorem getInterfaceName_characterized (interfaces : List TypesObject)
    (recv : RecvVar) :
    getInterfaceNameForReceiver interfaces recv =
      match interfaces.reverse.find?
          (fun o => o.underlyingIsInterface &&
            (implementsIface recv o && !(isAny o))) with
      | some o => "." ++ o.typeStr
      | none => "" :=
  IfaceResolution.fold_characterized recv interfaces ""

namespace FsModel

theorem fsGet_fsSet (fs : FileSys) (k c : String) :
    fsGet (fsSet fs k c) k = some c := by
  induction fs with
  | nil => simp [fsSet, fsGet]
  | cons q fs ih =>
    by_cases hq : (q.1 == k) = true
    · have hany : ((q :: fs).any (fun r => r.1 == k)) = true := by
        simp only [List.any_cons, hq, Bool.true_or]
      rw [fsSet, if_pos hany]
      simp only [List.map_cons]
      rw [if_pos hq]
      unfold fsGet
      rw [@List.find?_cons_of_pos _ (fun r => r.1 == k) (k, c) _ (by simp)]
      rfl
    · by_cases hfs : (fs.any (fun r => r.1 == k)) = true
      · have hany : ((q :: fs).any (fun r => r.1 == k)) = true := by
          simp only [List.any_cons, hfs, Bool.or_true]
        rw [fsSet, if_pos hany]
        simp only [List.map_cons]
        rw [if_neg hq]
        unfold fsGet
        rw [@List.find?_cons_of_neg _ (fun r => r.1 == k) q _ hq]
        have := ih
        rw [fsSet, if_pos hfs] at this
        unfold fsGet at this
        exact this
      · have hq' : (q.1 == k) = false := by
          cases h : (q.1 == k)
          · rfl
          · exact absurd h hq
        have hfs' : (fs.any (fun r => r.1 == k)) = false := by
          cases h : (fs.any (fun r => r.1 == k))
          · rfl
          · exact absurd h hfs
        have hany : ¬ ((q :: fs).any (fun r => r.1 == k)) = true := by
          simp only [List.any_cons, hq', hfs']
          simp
        rw [fsSet, if_neg hany, List.cons_append]
        unfold fsGet
        rw [@List.find?_cons_of_neg _ (fun r => r.1 == k) q _ hq]
        have := ih
        rw [fsSet, if_neg hfs] at this
        unfold fsGet at this
        exact this

end FsModel

set_option maxRecDepth 8000 in
/-- C9 counterexample: with an accessor file already present at the fixed
path, `WriteExtraFiles` does not skip generation — it overwrites the
existing file with the generated module, so an existing accessor file is
not left unchanged. -/
theorem writeExtraFiles_overwrites_cex :
    WriteExtraFiles "runtime" "dest" true
        [("dest/instrgen_tls.go", "existing user content")] =
      some [("dest/instrgen_tls.go", instrgenTlsSource)] ∧
      "existing user content" ≠ instrgenTlsSource := by
  constructor
  · decide
  · decide

/-- C9 amended: `WriteExtraFiles`, whenever `os.Create` succeeds, writes
the generated accessor module to the fixed file name
`destPath + "/instrgen_tls.go"` on every invocation, overwriting whatever
content was there — there is no existence check and no skip. -/
theorem writeExtraFiles_always_writes (pkg destPath : String) (fs : FileSys) :
    (WriteExtraFiles pkg destPath true fs).map
        (fun fsOut => fsGet fsOut (destPath ++ "/" ++ "instrgen_tls.go")) =
      some (some instrgenTlsSource) := by
  unfold WriteExtraFiles
  rw [if_pos rfl, Option.map_some', FsModel.fsGet_fsSet]

namespace BasicRw

/-- `BasicRewriter.Rewrite` is the pointwise map over the file's
declarations: function declarations get a prepended preamble (root
preamble only for `main` of package `main`), everything else is kept. -/
theorem decls_characterized (pkg : String) (f : GoFile) :
    (BasicRewriterRewrite pkg f).decls =
      f.decls.map (fun d =>
        match d with
        | Decl.funcDecl name params body =>
            Decl.funcDecl name params
              (if pkg == "main" && name == "main" then
                 makeInitStmts name ++ body
               else makeSpanStmts name "__atel_tracing_ctx" ++ body)
        | d => d) := by
  have aux : ∀ (ds : List Decl) (acc : GoFile),
      (List.foldl
          (fun acc d =>
            match d with
            | Decl.funcDecl name params body =>
              let body' :=
                if pkg == "main" && name == "main" then
                  makeInitStmts name ++ body
                else makeSpanStmts name "__atel_tracing_ctx" ++ body
              { imports :=
                  addNamedImport "__atel_runtime" "runtime"
                    (addNamedImport "__atel_otel" "go.opentelemetry.io/otel"
                      (addNamedImport "__atel_context" "context" acc.imports)),
                decls := acc.decls ++ [Decl.funcDecl name params body'] }
            | d => { acc with decls := acc.decls ++ [d] })
          acc ds).decls =
        acc.decls ++ ds.map (fun d =>
          match d with
          | Decl.funcDecl name params body =>
              Decl.funcDecl name params
                (if pkg == "main" && name == "main" then
                   makeInitStmts name ++ body
                 else makeSpanStmts name "__atel_tracing_ctx" ++ body)
          | d => d) := by
    intro ds
    induction ds with
    | nil => intro acc; simp
    | cons d ds ih =>
      intro acc
      rw [List.foldl_cons, ih, List.map_cons]
      cases d with
      | funcDecl name params body => simp
      | ifaceDecl name methods => simp
      | otherDecl => simp
  unfold BasicRewriterRewrite
  rw [aux]
  simp

end BasicRw

/-- C3 counterexample: a function declaration with no call-graph
membership at all (the call graph is empty) is still rewritten by the
instrumentation pass — `BasicRewriter.Rewrite` consults no call graph and
injects the span preamble into every function declaration, so functions
with no call-graph membership are not left untouched. -/
theorem basicRewriter_claim_cex :
    isFunPartOfCallGraph ⟨"main", "", "orphan", "func()"⟩ [] = false ∧
      BasicRewriterRewrite "main" ⟨[], [Decl.funcDecl "orphan" [] []]⟩ ≠
        (⟨[], [Decl.funcDecl "orphan" [] []]⟩ : GoFile) := by
  constructor
  · decide
  · decide

/-- C3 amended: `BasicRewriter.Rewrite` injects a preamble into every
function declaration of the files it rewrites — the root preamble into
`main` of package `main` and the span-start preamble into every other
function — regardless of call-graph membership or reachability. -/
theorem basicRewriter_instruments_all (pkg : String) (f : GoFile) (i : Nat)
    (name : String) (params : List ParamField) (body : List Stmt)
    (h : f.decls[i]? = some (Decl.funcDecl name params body)) :
    (BasicRewriterRewrite pkg f).decls[i]? =
      some (Decl.funcDecl name params
        (if pkg == "main" && name == "main" then makeInitStmts name ++ body
         else makeSpanStmts name "__atel_tracing_ctx" ++ body)) := by
  rw [BasicRw.decls_characterized, List.getElem?_map, h]
  rfl

/-- Witness for C3's amended theorem at a concrete input: a one-function
file whose function is in no call graph still gains the span preamble. -/
theorem basicRewriter_instruments_all_witness :
    (⟨[], [Decl.funcDecl "orphan" [] []]⟩ : GoFile).decls[0]? =
        some (Decl.funcDecl "orphan" [] []) ∧
      (BasicRewriterRewrite "main"
          ⟨[], [Decl.funcDecl "orphan" [] []]⟩).decls[0]? =
        some (Decl.funcDecl "orphan" []
          (if ("main" == "main" && "orphan" == "main") then
             makeInitStmts "orphan" ++ []
           else makeSpanStmts "orphan" "__atel_tracing_ctx" ++ [])) :=
  ⟨by decide,
   basicRewriter_instruments_all "main" ⟨[], [Decl.funcDecl "orphan" [] []]⟩
     0 "orphan" [] [] (by decide)⟩

/-- C4 counterexample: the root preamble injected into `main` consists of
eight statements, not seven — position 6 is the blank-identifier use
`_ = __atel_child_tracing_ctx`, the deferred span end is position 7, and
the goroutine-local store is last (position 8), after the deferred span
end rather than before it. -/
theorem rootPreamble_cex :
    (BasicRewriterRewrite "main" ⟨[], [Decl.funcDecl "main" [] []]⟩).decls =
        [Decl.funcDecl "main" [] (makeInitStmts "main")] ∧
      (makeInitStmts "main").length ≠ 7 ∧
      (makeInitStmts "main").length = 8 := by
  refine ⟨by decide, by decide, by decide⟩

/-- C4 amended: for the designated root function (`main` of package
`main`) the instrumentation pass injects exactly eight statements as the
first statements of its body, in this fixed order: (1) tracer-state
construction, (2) deferred shutdown of the tracer state, (3) registration
of the tracer as the global provider, (4) background context
construction, (5) a span start producing the child context and span
handle, (6) a blank-identifier use of the child context, (7) a deferred
span end, (8) storage of the child context into the goroutine-local
slot. -/
theorem rootPreamble_eight_stmts (f : GoFile) (i : Nat)
    (params : List ParamField) (body : List Stmt)
    (h : f.decls[i]? = some (Decl.funcDecl "main" params body)) :
    (BasicRewriterRewrite "main" f).decls[i]? =
      some (Decl.funcDecl "main" params (
        [ Stmt.assign .DEFINE (.ident "__atel_ts") []
            (.call (.sel (.ident "rtlib") "NewTracingState") []) [],
          Stmt.deferStmt (.call (.sel (.ident "rtlib") "Shutdown")
            [.ident "__atel_ts"]),
          Stmt.exprStmt (.call (.sel (.ident "__atel_otel") "SetTracerProvider")
            [.sel (.ident "__atel_ts") "Tp"]),
          Stmt.assign .DEFINE (.ident "__atel_ctx") []
            (.call (.sel (.ident "__atel_context") "Background") []) [],
          Stmt.assign .DEFINE (.ident "__atel_child_tracing_ctx")
            [.ident "__atel_span"]
            (.call (.sel (.call (.sel (.ident "__atel_otel") "Tracer")
                [.ident "\"main\""]) "Start")
              [.ident "__atel_ctx", .ident "\"main\""]) [],
          Stmt.assign .ASSIGN (.ident "_") []
            (.ident "__atel_child_tracing_ctx") [],
          Stmt.deferStmt (.call (.sel (.ident "__atel_span") "End") []),
          Stmt.exprStmt (.call (.sel (.ident "__atel_runtime") "InstrgenSetTls")
            [.ident "__atel_child_tracing_ctx"]) ] ++ body)) := by
  rw [BasicRw.decls_characterized, List.getElem?_map, h]
  rfl

/-- Witness for C4's amended theorem at a concrete input. -/
theorem rootPreamble_eight_stmts_witness :
    (⟨[], [Decl.funcDecl "main" [] [Stmt.other]]⟩ : GoFile).decls[0]? =
        some (Decl.funcDecl "main" [] [Stmt.other]) ∧
      (BasicRewriterRewrite "main"
          ⟨[], [Decl.funcDecl "main" [] [Stmt.other]]⟩).decls[0]? =
        some (Decl.funcDecl "main" [] (makeInitStmts "main" ++ [Stmt.other])) := by
  constructor
  · decide
  · have := rootPreamble_eight_stmts
      ⟨[], [Decl.funcDecl "main" [] [Stmt.other]]⟩ 0 [] [Stmt.other] (by decide)
    rw [this]
    decide

/-- C6: when root inference found zero roots, `Execute` serializes every
selected file unchanged into its side file without invoking the pass (the
right-hand side does not depend on `pass` or `applyImps`), performs no
rename, and succeeds with the empty file set — a no-op, not an error. -/
theorem execute_no_roots_noop {α : Type}
    (pass : α → Option (α × List ImportDirective))
    (applyImps : List ImportDirective → α → α)
    (debug : Bool) (fileSuffix : String) (files : List (EngineFile α))
    (hok : ∀ f ∈ files, f.selected = true →
      f.createOk = true ∧ f.printOk = true) :
    ExecuteEngine pass applyImps [] debug fileSuffix files [] =
      ((files.filter (fun f => f.selected)).flatMap
         (fun f => [FsOp.created (f.name ++ fileSuffix),
                    FsOp.wrote (f.name ++ fileSuffix) f.tree]),
       Except.ok []) := by
  suffices h : ∀ (fs : List (EngineFile α)) (ops : List (FsOp α)),
      (∀ f ∈ fs, f.selected = true → f.createOk = true ∧ f.printOk = true) →
      ExecuteEngine pass applyImps [] debug fileSuffix fs ops =
        (ops ++ (fs.filter (fun f => f.selected)).flatMap
           (fun f => [FsOp.created (f.name ++ fileSuffix),
                      FsOp.wrote (f.name ++ fileSuffix) f.tree]),
         Except.ok []) by
    have := h files [] hok
    simpa using this
  intro fs
  induction fs with
  | nil => intro ops _; simp [ExecuteEngine]
  | cons f fs ih =>
    intro ops hok'
    by_cases hsel : f.selected = true
    · rcases hok' f (List.mem_cons_self f fs) hsel with ⟨hc, hp⟩
      rw [ExecuteEngine, if_neg (by simp [hsel]), if_neg (by simp [hc])]
      simp only [List.isEmpty_nil, if_true]
      rw [if_neg (by simp [hp])]
      rw [ih _ (fun g hg => hok' g (List.mem_cons_of_mem f hg))]
      rw [List.filter_cons, if_pos hsel]
      simp [List.append_assoc]
    · rw [ExecuteEngine, if_pos (by simp [hsel])]
      rw [ih _ (fun g hg => hok' g (List.mem_cons_of_mem f hg))]
      rw [List.filter_cons, if_neg (by simp [hsel])]

/-- Witness for C6 at a concrete input: two files, one selected, engine
run with no roots — the selected file is serialized unchanged and the
result is success. -/
theorem execute_no_roots_noop_witness :
    (∀ f ∈ [(⟨"a.go", true, 0, true, true, true⟩ : EngineFile Nat),
            ⟨"b.go", false, 1, true, true, true⟩], f.selected = true →
        f.createOk = true ∧ f.printOk = true) ∧
      ExecuteEngine (fun t => some (t + 7, [])) (fun _ t => t) [] false
          "_pass" [⟨"a.go", true, 0, true, true, true⟩,
                   ⟨"b.go", false, 1, true, true, true⟩] [] =
        ([FsOp.created "a.go_pass", FsOp.wrote "a.go_pass" 0],
         Except.ok []) := by
  constructor
  · decide
  · have := execute_no_roots_noop (fun t : Nat => some (t + 7, []))
      (fun _ t => t) false "_pass"
      [⟨"a.go", true, 0, true, true, true⟩, ⟨"b.go", false, 1, true, true, true⟩]
      (by decide)
    rw [this]
    rfl

namespace EngineAbort

/-- A selected file whose side file is created and whose pass succeeds but
whose serialization or rename (debug off) fails turns the run into an
`ioErr`, appending only this file's operations to the trace. -/
theorem bad_step {α : Type}
    (pass : α → Option (α × List ImportDirective))
    (applyImps : List ImportDirective → α → α)
    (roots : List FuncDescriptor) (fileSuffix : String)
    (bad : EngineFile α) (rest : List (EngineFile α)) (ops : List (FsOp α))
    (hroots : roots ≠ [])
    (hsel : bad.selected = true) (hcreate : bad.createOk = true)
    (hpass : ∃ pr, pass bad.tree = some pr)
    (hfail : bad.printOk = false ∨ bad.renameOk = false) :
    ∃ extra, ExecuteEngine pass applyImps roots false fileSuffix
        (bad :: rest) ops = (ops ++ extra, Except.error EngineErr.ioErr) := by
  rcases hpass with ⟨pr, hpr⟩
  have hre : roots.isEmpty = false := by
    cases roots with
    | nil => exact absurd rfl hroots
    | cons r rs => rfl
  simp only [ExecuteEngine, if_neg (by simp [hsel] : ¬ ¬ bad.selected = true),
    if_neg (by simp [hcreate] : ¬ ¬ bad.createOk = true), hre,
    Bool.false_eq_true, if_false, hpr]
  rcases hfail with hf | hf
  · rw [if_pos (by simp [hf])]
    exact ⟨[FsOp.created (bad.name ++ fileSuffix)], rfl⟩
  · by_cases hp : bad.printOk = true
    · rw [if_neg (by simp [hp]), if_pos (by simp [hf])]
      refine ⟨[FsOp.created (bad.name ++ fileSuffix),
        FsOp.wrote (bad.name ++ fileSuffix) (applyImps pr.2 pr.1)], ?_⟩
      simp [List.append_assoc]
    · rw [if_pos hp]
      exact ⟨[FsOp.created (bad.name ++ fileSuffix)], rfl⟩

end EngineAbort

/-- C7: a serialization or rename failure on any file aborts the whole
`Execute` call with the error, and the operations of the earlier,
successfully processed files — their side-file writes and the renames
that already replaced the originals — stay performed: the final trace
extends the successful prefix's trace, and nothing is rolled back. -/
theorem execute_error_aborts_no_rollback {α : Type}
    (pass : α → Option (α × List ImportDirective))
    (applyImps : List ImportDirective → α → α)
    (roots : List FuncDescriptor) (fileSuffix : String)
    (pre : List (EngineFile α)) (bad : EngineFile α)
    (rest : List (EngineFile α)) (opsPre : List (FsOp α)) (treesPre : List α)
    (hroots : roots ≠ [])
    (hpre : ExecuteEngine pass applyImps roots false fileSuffix pre [] =
      (opsPre, Except.ok treesPre))
    (hsel : bad.selected = true) (hcreate : bad.createOk = true)
    (hpass : ∃ pr, pass bad.tree = some pr)
    (hfail : bad.printOk = false ∨ bad.renameOk = false) :
    ∃ extra, ExecuteEngine pass applyImps roots false fileSuffix
        (pre ++ bad :: rest) [] =
      (opsPre ++ extra, Except.error EngineErr.ioErr) := by
  have hre : roots.isEmpty = false := by
    cases roots with
    | nil => exact absurd rfl hroots
    | cons r rs => rfl
  suffices h : ∀ (pre : List (EngineFile α)) (ops opsP : List (FsOp α))
      (ts : List α),
      ExecuteEngine pass applyImps roots false fileSuffix pre ops =
        (opsP, Except.ok ts) →
      ∃ extra, ExecuteEngine pass applyImps roots false fileSuffix
          (pre ++ bad :: rest) ops =
        (opsP ++ extra, Except.error EngineErr.ioErr) by
    exact h pre [] opsPre treesPre hpre
  intro pre
  induction pre with
  | nil =>
    intro ops opsP ts hp
    simp only [ExecuteEngine] at hp
    obtain ⟨h1, -⟩ := Prod.mk.injEq .. ▸ hp
    subst h1
    simpa using EngineAbort.bad_step pass applyImps roots fileSuffix bad rest
      ops hroots hsel hcreate hpass hfail
  | cons f pre ih =>
    intro ops opsP ts hp
    rw [List.cons_append]
    by_cases hfsel : f.selected = true
    · by_cases hfc : f.createOk = true
      · rw [ExecuteEngine, if_neg (by simp [hfsel]), if_neg (by simp [hfc]),
          hre] at hp
        simp only [Bool.false_eq_true, if_false] at hp
        rw [ExecuteEngine, if_neg (by simp [hfsel]), if_neg (by simp [hfc]),
          hre]
        simp only [Bool.false_eq_true, if_false]
        cases hfp : pass f.tree with
        | none =>
          try rw [hfp] at hp
          exact absurd (congrArg Prod.snd hp) (by simp)
        | some pr1 =>
          obtain ⟨tree1, imps⟩ := pr1
          try rw [hfp] at hp
          try rw [hfp]
          dsimp only at hp ⊢
          by_cases hfpr : f.printOk = true
          · rw [if_neg (by simp [hfpr])] at hp
            rw [if_neg (by simp [hfpr])]
            by_cases hfr : f.renameOk = true
            · rw [if_neg (by simp [hfr])] at hp
              rw [if_neg (by simp [hfr])]
              cases hrec : ExecuteEngine pass applyImps roots false fileSuffix
                  pre (ops ++ [FsOp.created (f.name ++ fileSuffix)] ++
                    [FsOp.wrote (f.name ++ fileSuffix)
                      (applyImps imps tree1)] ++
                    [FsOp.renamed (f.name ++ fileSuffix) f.name]) with
              | mk ops4 res =>
                rw [hrec] at hp
                cases res with
                | error e => exact absurd (congrArg Prod.snd hp) (by simp)
                | ok ts1 =>
                  obtain ⟨h1, -⟩ := Prod.mk.injEq .. ▸ hp
                  subst h1
                  rcases ih _ _ _ hrec with ⟨extra, hx⟩
                  rw [hx]
                  exact ⟨extra, rfl⟩
            · have hfr0 : f.renameOk = false := by
                cases h : f.renameOk
                · rfl
                · exact absurd h hfr
              rw [if_pos (by simp [hfr0])] at hp
              exact absurd (congrArg Prod.snd hp) (by simp)
          · have hfp0 : f.printOk = false := by
              cases h : f.printOk
              · rfl
              · exact absurd h hfpr
            rw [if_pos (by simp [hfp0])] at hp
            exact absurd (congrArg Prod.snd hp) (by simp)
      · rw [ExecuteEngine, if_neg (by simp [hfsel]),
          if_pos (by simpa using hfc)] at hp
        exact absurd (congrArg Prod.snd hp) (by simp)
    · rw [ExecuteEngine, if_pos (by simpa using hfsel)] at hp
      rw [ExecuteEngine, if_pos (by simpa using hfsel)]
      exact ih _ _ _ hp

/-- Witness for C7 at a concrete input: the first file is fully processed
(created, written, renamed), the second file's serialization fails — the
call errors out and the first file's operations stay in the trace. -/
theorem execute_error_aborts_no_rollback_witness :
    ∃ extra, ExecuteEngine (fun t : Nat => some (t + 1, []))
        (fun _ t => t) [⟨"main", "", "main", "func()"⟩] false "_pass"
        ([⟨"a.go", true, 0, true, true, true⟩] ++
          (⟨"b.go", true, 5, true, false, true⟩ : EngineFile Nat) :: []) [] =
      ([FsOp.created "a.go_pass", FsOp.wrote "a.go_pass" 1,
        FsOp.renamed "a.go_pass" "a.go"] ++ extra,
       Except.error EngineErr.ioErr) :=
  execute_error_aborts_no_rollback (fun t : Nat => some (t + 1, []))
    (fun _ t => t) [⟨"main", "", "main", "func()"⟩] "_pass"
    [⟨"a.go", true, 0, true, true, true⟩] ⟨"b.go", true, 5, true, false, true⟩
    [] [FsOp.created "a.go_pass", FsOp.wrote "a.go_pass" 1,
        FsOp.renamed "a.go_pass" "a.go"] [1]
    (by simp) rfl rfl rfl ⟨(6, []), rfl⟩ (Or.inl rfl)

namespace CtxPropTotal

theorem emitEmptyContext_total (analysis : PassAnalysis) (r : FuncDescriptor)
    (rs : List FuncDescriptor) (h : analysis.RootFunctions = r :: rs)
    (cf : FuncDescriptor) (args : List Expr) :
    emitEmptyContext analysis cf args ≠ none := by
  unfold emitEmptyContext
  rw [h]
  by_cases hcf : cf ≠ default
  · rw [if_pos hcf]
    simp only [List.getElem?_cons_zero]
    split <;> simp
  · rw [if_neg hcf]
    simp

theorem emitCallExpr_total (pkg : String) (analysis : PassAnalysis)
    (r : FuncDescriptor) (rs : List FuncDescriptor)
    (h : analysis.RootFunctions = r :: rs) (cf : FuncDescriptor)
    (identName : String) (useType : Option String) (args : List Expr) :
    emitCallExpr pkg analysis cf identName useType args ≠ none := by
  unfold emitCallExpr
  cases useType with
  | none => simp
  | some ftype =>
    simp only
    split
    · rw [h]
      simp only [List.getElem?_cons_zero]
      split
      · intro hc
        exact emitEmptyContext_total analysis r rs h cf args
          (by simpa using congrArg (Option.map Prod.fst) hc)
      · simp
    · simp

theorem emitCallSel_total (pkg : String) (analysis : PassAnalysis)
    (r : FuncDescriptor) (rs : List FuncDescriptor)
    (h : analysis.RootFunctions = r :: rs) (cf : FuncDescriptor)
    (s : SelInfo) (args : List Expr) :
    emitCallSel pkg analysis cf s args ≠ none := by
  unfold emitCallSel
  intro hc
  simp only [h, List.getElem?_cons_zero] at hc
  repeat' split at hc
  all_goals
    first
      | exact Option.noConfusion hc
      | exact emitEmptyContext_total analysis r rs h cf args
          (by simpa using hc)

theorem ctxPropFuncDecl_total (pkg : String) (analysis : PassAnalysis)
    (r : FuncDescriptor) (rs : List FuncDescriptor)
    (h : analysis.RootFunctions = r :: rs) (name recvStr ftype : String)
    (params : List ParamField) :
    ctxPropFuncDecl pkg analysis name recvStr ftype params ≠ none := by
  unfold ctxPropFuncDecl
  simp only
  split
  · simp
  · split
    · simp
    · rw [h]
      simp only [List.getElem?_cons_zero]
      split <;> simp

theorem ctxPropNode_total (pkg : String) (analysis : PassAnalysis)
    (r : FuncDescriptor) (rs : List FuncDescriptor)
    (h : analysis.RootFunctions = r :: rs) (cf : FuncDescriptor)
    (n : PassNode) : ctxPropNode pkg analysis cf n ≠ none := by
  cases n with
  | funcDecl name recvStr ftype params =>
    unfold ctxPropNode
    intro hc
    exact ctxPropFuncDecl_total pkg analysis r rs h name recvStr ftype params
      (by simpa using congrArg (Option.map (fun q => q.1)) hc)
  | callIdent identName useType args =>
    unfold ctxPropNode
    intro hc
    exact emitCallExpr_total pkg analysis r rs h cf identName useType args
      (by simpa using congrArg (Option.map (fun q => q.1)) hc)
  | callSel s args =>
    unfold ctxPropNode
    cases s with
    | none => simp
    | some si =>
      intro hc
      exact emitCallSel_total pkg analysis r rs h cf si args
        (by simpa using congrArg (Option.map (fun q => q.1)) hc)
  | otherNode => unfold ctxPropNode; simp

theorem ctxPropNodes_total (pkg : String) (analysis : PassAnalysis)
    (r : FuncDescriptor) (rs : List FuncDescriptor)
    (h : analysis.RootFunctions = r :: rs) (ns : List PassNode) :
    ∀ (cf : FuncDescriptor) (b : Bool),
      ctxPropNodes pkg analysis cf b ns ≠ none := by
  induction ns with
  | nil => intro cf b; simp [ctxPropNodes]
  | cons n ns ih =>
    intro cf b hc
    rw [ctxPropNodes] at hc
    cases hn : ctxPropNode pkg analysis cf n with
    | none => exact absurd hn (ctxPropNode_total pkg analysis r rs h cf n)
    | some res =>
      try rw [hn] at hc
      obtain ⟨cf1, a1, n1⟩ := res
      dsimp only at hc
      cases hns : ctxPropNodes pkg analysis cf1 (b || a1) ns with
      | none => exact absurd hns (ih cf1 (b || a1))
      | some res2 =>
        try rw [hns] at hc
        simp at hc

theorem execute_total (pkg : String) (analysis : PassAnalysis)
    (r : FuncDescriptor) (rs : List FuncDescriptor)
    (h : analysis.RootFunctions = r :: rs) (f : PassFile) :
    ContextPropagationExecute pkg analysis f ≠ none := by
  unfold ContextPropagationExecute
  cases hns : ctxPropNodes pkg analysis default false f.nodes with
  | none => exact absurd hns (ctxPropNodes_total pkg analysis r rs h f.nodes default false)
  | some res => simp

end CtxPropTotal

/-- C10: the `RootFunctions[0]` accesses of the context-propagation pass
are always in range when the pass runs under the engine: the engine
serializes files unchanged without invoking the pass when the root list is
empty, and with a nonempty root list every index access of the pass is
guarded, so an engine run with the context-propagation pass can never end
in the index fault. -/
theorem ctxProp_root_index_safe (pkg : String) (analysis : PassAnalysis)
    (debug : Bool) (fileSuffix : String) (files : List (EngineFile PassFile))
    (ops : List (FsOp PassFile)) :
    (ExecuteEngine (ContextPropagationExecute pkg analysis)
        applyImportDirectives analysis.RootFunctions debug fileSuffix
        files ops).2 ≠ Except.error EngineErr.idxFault := by
  induction files generalizing ops with
  | nil => simp [ExecuteEngine]
  | cons f fs ih =>
    rw [ExecuteEngine]
    by_cases hsel : f.selected = true
    · rw [if_neg (by simp [hsel])]
      by_cases hc : f.createOk = true
      · rw [if_neg (by simp [hc])]
        cases hroots : analysis.RootFunctions with
        | nil =>
          simp only [hroots] at ih
          simp only [List.isEmpty_nil, if_true]
          by_cases hp : f.printOk = true
          · rw [if_neg (by simp [hp])]
            exact ih _
          · rw [if_pos (by simpa using hp)]
            simp
        | cons r rs =>
          simp only [hroots] at ih
          simp only [List.isEmpty_cons, Bool.false_eq_true, if_false]
          cases hpass : ContextPropagationExecute pkg analysis f.tree with
          | none =>
            exact absurd hpass
              (CtxPropTotal.execute_total pkg analysis r rs hroots f.tree)
          | some pr =>
            try rw [hpass]
            obtain ⟨tree1, imps⟩ := pr
            dsimp only
            by_cases hp : f.printOk = true
            · rw [if_neg (by simp [hp])]
              by_cases hd : debug = true
              · rw [if_pos hd]
                split
                · simp
                · next ops3 e heq =>
                  intro hcontra
                  have he : e = EngineErr.idxFault := by simpa using hcontra
                  subst he
                  exact (ih _) (by rw [heq])
              · rw [if_neg hd]
                by_cases hr : f.renameOk = true
                · rw [if_neg (by simp [hr])]
                  split
                  · simp
                  · next ops3 e heq =>
                    intro hcontra
                    have he : e = EngineErr.idxFault := by simpa using hcontra
                    subst he
                    exact (ih _) (by rw [heq])
                · rw [if_pos (by simpa using hr)]
                  simp
            · rw [if_pos (by simpa using hp)]
              simp
      · rw [if_pos (by simpa using hc)]
        simp
    · rw [if_pos (by simpa using hsel)]
      exact ih _

namespace CtxPropChar

theorem node_funcDecl (pkg : String) (analysis : PassAnalysis)
    (r0 : FuncDescriptor) (rs : List FuncDescriptor)
    (h : analysis.RootFunctions = r0 :: rs) (cf : FuncDescriptor)
    (name recvStr ftype : String) (params : List ParamField) :
    ∃ a, ctxPropNode pkg analysis cf
        (PassNode.funcDecl name recvStr ftype params) =
      some (⟨pkg, recvStr, name, ftype⟩, a,
        PassNode.funcDecl name recvStr ftype
          (if (isFunPartOfCallGraph ⟨pkg, recvStr, name, ftype⟩
                  analysis.Callgraph
                && !(Contains analysis.RootFunctions ⟨pkg, recvStr, name, ftype⟩)
                && isPathTop analysis.Callgraph ⟨pkg, recvStr, name, ftype⟩ r0)
              = true
           then ctxField :: params else params)) := by
  simp only [ctxPropNode, ctxPropFuncDecl, h, List.getElem?_cons_zero]
  by_cases h1 : isFunPartOfCallGraph ⟨pkg, recvStr, name, ftype⟩
      analysis.Callgraph = true <;>
    by_cases h2 : Contains (r0 :: rs)
        ⟨pkg, recvStr, name, ftype⟩ = true <;>
    by_cases h3 : isPathTop analysis.Callgraph ⟨pkg, recvStr, name, ftype⟩
        r0 = true <;>
    simp [h, h1, h2, h3]

theorem node_callIdent_some (pkg : String) (analysis : PassAnalysis)
    (r0 : FuncDescriptor) (rs : List FuncDescriptor)
    (h : analysis.RootFunctions = r0 :: rs) (cf : FuncDescriptor)
    (identName ftype : String) (args : List Expr) :
    ∃ a, ctxPropNode pkg analysis cf
        (PassNode.callIdent identName (some ftype) args) =
      some (cf, a, PassNode.callIdent identName (some ftype)
        (if (Contains analysis.FuncDecls ⟨pkg, "", identName, ftype⟩
              && isPathTop analysis.Callgraph ⟨pkg, "", identName, ftype⟩ r0)
            = true
         then (if cf ≠ default then
                 (if isPathTop analysis.Callgraph cf r0 = true then ctxArg
                  else contextTodo)
               else contextTodo) :: args
         else args)) := by
  simp only [ctxPropNode, emitCallExpr, emitEmptyContext, h,
    List.getElem?_cons_zero]
  by_cases h1 : Contains analysis.FuncDecls ⟨pkg, "", identName, ftype⟩
      = true <;>
    by_cases h2 : isPathTop analysis.Callgraph ⟨pkg, "", identName, ftype⟩
        r0 = true <;>
    by_cases h3 : cf ≠ default <;>
    by_cases h4 : isPathTop analysis.Callgraph cf r0 = true <;>
    simp [h1, h2, h3, h4]

theorem node_callIdent_none (pkg : String) (analysis : PassAnalysis)
    (cf : FuncDescriptor) (identName : String) (args : List Expr) :
    ctxPropNode pkg analysis cf (PassNode.callIdent identName none args) =
      some (cf, false, PassNode.callIdent identName none args) := rfl

theorem node_callSel_some (pkg : String) (analysis : PassAnalysis)
    (r0 : FuncDescriptor) (rs : List FuncDescriptor)
    (h : analysis.RootFunctions = r0 :: rs) (cf : FuncDescriptor)
    (si : SelInfo) (args : List Expr) :
    ∃ a, ctxPropNode pkg analysis cf (PassNode.callSel (some si) args) =
      some (cf, a, PassNode.callSel (some si)
        (if (Contains analysis.FuncDecls
                ⟨pkg, if si.recvString.length > 0 then "." ++ si.recvString
                      else "", si.objName, si.useType.getD ""⟩
              && isPathTop analysis.Callgraph
                ⟨pkg, if si.recvString.length > 0 then "." ++ si.recvString
                      else "", si.objName, si.useType.getD ""⟩ r0) = true
         then (if cf ≠ default then
                 (if isPathTop analysis.Callgraph cf r0 = true then ctxArg
                  else contextTodo)
               else contextTodo) :: args
         else args)) := by
  simp only [ctxPropNode, emitCallSel, emitEmptyContext, h,
    List.getElem?_cons_zero]
  by_cases h1 : Contains analysis.FuncDecls
      ⟨pkg, if si.recvString.length > 0 then "." ++ si.recvString else "",
        si.objName, si.useType.getD ""⟩ = true <;>
    by_cases h2 : isPathTop analysis.Callgraph
        ⟨pkg, if si.recvString.length > 0 then "." ++ si.recvString else "",
          si.objName, si.useType.getD ""⟩ r0 = true <;>
    by_cases h3 : cf ≠ default <;>
    by_cases h4 : isPathTop analysis.Callgraph cf r0 = true <;>
    simp [h1, h2, h3, h4]

theorem node_callSel_none (pkg : String) (analysis : PassAnalysis)
    (cf : FuncDescriptor) (args : List Expr) :
    ctxPropNode pkg analysis cf (PassNode.callSel none args) =
      some (cf, false, PassNode.callSel none args) := rfl

theorem node_otherNode (pkg : String) (analysis : PassAnalysis)
    (cf : FuncDescriptor) :
    ctxPropNode pkg analysis cf PassNode.otherNode =
      some (cf, false, PassNode.otherNode) := rfl

end CtxPropChar

namespace CtxPropChar

theorem nodes_char (pkg : String) (analysis : PassAnalysis)
    (r0 : FuncDescriptor) (rs : List FuncDescriptor)
    (h : analysis.RootFunctions = r0 :: rs) :
    ∀ (ns : List PassNode) (cf : FuncDescriptor) (b : Bool),
      ∃ (out : List PassNode) (b2 : Bool),
        ctxPropNodes pkg analysis cf b ns = some (out, b2) ∧
        out.length = ns.length ∧
        (∀ (i : Nat) name recvStr ftype params,
          ns[i]? = some (PassNode.funcDecl name recvStr ftype params) →
          out[i]? = some (PassNode.funcDecl name recvStr ftype
            (if (isFunPartOfCallGraph ⟨pkg, recvStr, name, ftype⟩
                    analysis.Callgraph
                  && !(Contains analysis.RootFunctions
                    ⟨pkg, recvStr, name, ftype⟩)
                  && isPathTop analysis.Callgraph ⟨pkg, recvStr, name, ftype⟩
                    r0) = true
             then ctxField :: params else params))) ∧
        (∀ (i : Nat) identName ftype args,
          ns[i]? = some (PassNode.callIdent identName (some ftype) args) →
          out[i]? = some (PassNode.callIdent identName (some ftype)
            (if (Contains analysis.FuncDecls ⟨pkg, "", identName, ftype⟩
                  && isPathTop analysis.Callgraph ⟨pkg, "", identName, ftype⟩
                    r0) = true
             then (if currentFunAt pkg cf ns i ≠ default then
                     (if isPathTop analysis.Callgraph
                          (currentFunAt pkg cf ns i) r0 = true
                      then ctxArg else contextTodo)
                   else contextTodo) :: args
             else args))) ∧
        (∀ (i : Nat) si args,
          ns[i]? = some (PassNode.callSel (some si) args) →
          out[i]? = some (PassNode.callSel (some si)
            (if (Contains analysis.FuncDecls
                    ⟨pkg, if si.recvString.length > 0 then
                        "." ++ si.recvString else "",
                      si.objName, si.useType.getD ""⟩
                  && isPathTop analysis.Callgraph
                    ⟨pkg, if si.recvString.length > 0 then
                        "." ++ si.recvString else "",
                      si.objName, si.useType.getD ""⟩ r0) = true
             then (if currentFunAt pkg cf ns i ≠ default then
                     (if isPathTop analysis.Callgraph
                          (currentFunAt pkg cf ns i) r0 = true
                      then ctxArg else contextTodo)
                   else contextTodo) :: args
             else args))) := by
  intro ns
  induction ns with
  | nil =>
    intro cf b
    refine ⟨[], b, rfl, rfl, ?_, ?_, ?_⟩
    · intro i name recvStr ftype params hI; simp at hI
    · intro i identName ftype args hI; simp at hI
    · intro i si args hI; simp at hI
  | cons n ns ih =>
    intro cf b
    cases n with
    | funcDecl name0 recvStr0 ftype0 params0 =>
      obtain ⟨a1, hnode⟩ :=
        node_funcDecl pkg analysis r0 rs h cf name0 recvStr0 ftype0 params0
      obtain ⟨out, b2, hrec, hlen, hfd, hci, hcs⟩ :=
        ih ⟨pkg, recvStr0, name0, ftype0⟩ (b || a1)
      refine ⟨PassNode.funcDecl name0 recvStr0 ftype0
          (if (isFunPartOfCallGraph ⟨pkg, recvStr0, name0, ftype0⟩
                  analysis.Callgraph
                && !(Contains analysis.RootFunctions
                  ⟨pkg, recvStr0, name0, ftype0⟩)
                && isPathTop analysis.Callgraph ⟨pkg, recvStr0, name0, ftype0⟩
                  r0) = true
           then ctxField :: params0 else params0) :: out, b2,
        ?_, by simp [hlen], ?_, ?_, ?_⟩
      · simp only [ctxPropNodes]
        rw [hnode]
        dsimp only
        rw [hrec]
      · intro i nm rc ft ps hI
        cases i with
        | zero =>
          simp only [List.getElem?_cons_zero, Option.some.injEq] at hI
          cases hI
          simp only [List.getElem?_cons_zero]
        | succ i =>
          simp only [List.getElem?_cons_succ] at hI ⊢
          exact hfd i nm rc ft ps hI
      · intro i idn ft args hI
        cases i with
        | zero => simp at hI
        | succ i =>
          simp only [List.getElem?_cons_succ] at hI ⊢
          exact hci i idn ft args hI
      · intro i si args hI
        cases i with
        | zero => simp at hI
        | succ i =>
          simp only [List.getElem?_cons_succ] at hI ⊢
          exact hcs i si args hI
    | callIdent idn0 use0 args0 =>
      cases use0 with
      | none =>
        obtain ⟨out, b2, hrec, hlen, hfd, hci, hcs⟩ := ih cf (b || false)
        refine ⟨PassNode.callIdent idn0 none args0 :: out, b2,
          ?_, by simp [hlen], ?_, ?_, ?_⟩
        · simp only [ctxPropNodes]
          rw [node_callIdent_none]
          dsimp only
          rw [hrec]
        · intro i nm rc ft ps hI
          cases i with
          | zero => simp at hI
          | succ i =>
            simp only [List.getElem?_cons_succ] at hI ⊢
            exact hfd i nm rc ft ps hI
        · intro i idn ft args hI
          cases i with
          | zero => simp at hI
          | succ i =>
            simp only [List.getElem?_cons_succ] at hI ⊢
            exact hci i idn ft args hI
        · intro i si args hI
          cases i with
          | zero => simp at hI
          | succ i =>
            simp only [List.getElem?_cons_succ] at hI ⊢
            exact hcs i si args hI
      | some ft0 =>
        obtain ⟨a1, hnode⟩ :=
          node_callIdent_some pkg analysis r0 rs h cf idn0 ft0 args0
        obtain ⟨out, b2, hrec, hlen, hfd, hci, hcs⟩ := ih cf (b || a1)
        refine ⟨PassNode.callIdent idn0 (some ft0)
            (if (Contains analysis.FuncDecls ⟨pkg, "", idn0, ft0⟩
                  && isPathTop analysis.Callgraph ⟨pkg, "", idn0, ft0⟩ r0)
                = true
             then (if cf ≠ default then
                     (if isPathTop analysis.Callgraph cf r0 = true then ctxArg
                      else contextTodo)
                   else contextTodo) :: args0
             else args0) :: out, b2,
          ?_, by simp [hlen], ?_, ?_, ?_⟩
        · simp only [ctxPropNodes]
          rw [hnode]
          dsimp only
          rw [hrec]
        · intro i nm rc ft ps hI
          cases i with
          | zero => simp at hI
          | succ i =>
            simp only [List.getElem?_cons_succ] at hI ⊢
            exact hfd i nm rc ft ps hI
        · intro i idn ft args hI
          cases i with
          | zero =>
            simp only [List.getElem?_cons_zero, Option.some.injEq] at hI
            cases hI
            simp only [List.getElem?_cons_zero]
            rfl
          | succ i =>
            simp only [List.getElem?_cons_succ] at hI ⊢
            exact hci i idn ft args hI
        · intro i si args hI
          cases i with
          | zero => simp at hI
          | succ i =>
            simp only [List.getElem?_cons_succ] at hI ⊢
            exact hcs i si args hI
    | callSel sel0 args0 =>
      cases sel0 with
      | none =>
        obtain ⟨out, b2, hrec, hlen, hfd, hci, hcs⟩ := ih cf (b || false)
        refine ⟨PassNode.callSel none args0 :: out, b2,
          ?_, by simp [hlen], ?_, ?_, ?_⟩
        · simp only [ctxPropNodes]
          rw [node_callSel_none]
          dsimp only
          rw [hrec]
        · intro i nm rc ft ps hI
          cases i with
          | zero => simp at hI
          | succ i =>
            simp only [List.getElem?_cons_succ] at hI ⊢
            exact hfd i nm rc ft ps hI
        · intro i idn ft args hI
          cases i with
          | zero => simp at hI
          | succ i =>
            simp only [List.getElem?_cons_succ] at hI ⊢
            exact hci i idn ft args hI
        · intro i si args hI
          cases i with
          | zero => simp at hI
          | succ i =>
            simp only [List.getElem?_cons_succ] at hI ⊢
            exact hcs i si args hI
      | some si0 =>
        obtain ⟨a1, hnode⟩ :=
          node_callSel_some pkg analysis r0 rs h cf si0 args0
        obtain ⟨out, b2, hrec, hlen, hfd, hci, hcs⟩ := ih cf (b || a1)
        refine ⟨PassNode.callSel (some si0)
            (if (Contains analysis.FuncDecls
                    ⟨pkg, if si0.recvString.length > 0 then
                        "." ++ si0.recvString else "",
                      si0.objName, si0.useType.getD ""⟩
                  && isPathTop analysis.Callgraph
                    ⟨pkg, if si0.recvString.length > 0 then
                        "." ++ si0.recvString else "",
                      si0.objName, si0.useType.getD ""⟩ r0) = true
             then (if cf ≠ default then
                     (if isPathTop analysis.Callgraph cf r0 = true then ctxArg
                      else contextTodo)
                   else contextTodo) :: args0
             else args0) :: out, b2,
          ?_, by simp [hlen], ?_, ?_, ?_⟩
        · simp only [ctxPropNodes]
          rw [hnode]
          dsimp only
          rw [hrec]
        · intro i nm rc ft ps hI
          cases i with
          | zero => simp at hI
          | succ i =>
            simp only [List.getElem?_cons_succ] at hI ⊢
            exact hfd i nm rc ft ps hI
        · intro i idn ft args hI
          cases i with
          | zero => simp at hI
          | succ i =>
            simp only [List.getElem?_cons_succ] at hI ⊢
            exact hci i idn ft args hI
        · intro i si args hI
          cases i with
          | zero =>
            simp only [List.getElem?_cons_zero, Option.some.injEq] at hI
            cases hI
            simp only [List.getElem?_cons_zero]
            rfl
          | succ i =>
            simp only [List.getElem?_cons_succ] at hI ⊢
            exact hcs i si args hI
    | otherNode =>
      obtain ⟨out, b2, hrec, hlen, hfd, hci, hcs⟩ := ih cf (b || false)
      refine ⟨PassNode.otherNode :: out, b2, ?_, by simp [hlen], ?_, ?_, ?_⟩
      · simp only [ctxPropNodes]
        rw [node_otherNode]
        dsimp only
        rw [hrec]
      · intro i nm rc ft ps hI
        cases i with
        | zero => simp at hI
        | succ i =>
          simp only [List.getElem?_cons_succ] at hI ⊢
          exact hfd i nm rc ft ps hI
      · intro i idn ft args hI
        cases i with
        | zero => simp at hI
        | succ i =>
          simp only [List.getElem?_cons_succ] at hI ⊢
          exact hci i idn ft args hI
      · intro i si args hI
        cases i with
        | zero => simp at hI
        | succ i =>
          simp only [List.getElem?_cons_succ] at hI ⊢
          exact hcs i si args hI

end CtxPropChar

/-- C2 counterexample: a call site whose callee is a known declared
function but has no path to the designated root in the reverse call graph
is left completely unchanged by the context-propagation pass — neither the
caller's trace-context identifier nor an empty-context literal is passed,
contradicting the claim that at every call site of a known declared
function one of the two is passed as the new first argument. -/
theorem ctxProp_claim_cex :
    Contains [⟨"main", "", "doWork", "func()"⟩]
        (⟨"main", "", "doWork", "func()"⟩ : FuncDescriptor) = true ∧
      ContextPropagationExecute "main"
          ⟨[⟨"main", "", "main", "func()"⟩],
            [⟨"main", "", "doWork", "func()"⟩], []⟩
          ⟨[], [PassNode.funcDecl "f" "" "func()" [],
                PassNode.callIdent "doWork" (some "func()") []]⟩ =
        some (⟨[], [PassNode.funcDecl "f" "" "func()" [],
                    PassNode.callIdent "doWork" (some "func()") []]⟩, []) ∧
      ([] : List Expr) ≠ [ctxArg] ∧ ([] : List Expr) ≠ [contextTodo] := by
  refine ⟨by decide, by decide, by decide, by decide⟩

/-- C2 amended: with a designated root available, the context-propagation
pass (a) prepends the trace-context parameter to a function declaration's
signature exactly when the function is a call-graph member, is not itself
a root, and has a path in the reverse call graph to the designated root;
and (b) rewrites a call site of a known declared function only when the
callee itself is root-reachable, in which case the caller's trace-context
identifier is passed as the new first argument when the call is inside a
function declaration on a root-reachable path and the empty-context
literal `__atel_context.TODO()` is passed otherwise; call sites of known
but non-root-reachable callees (and of unresolved callees) are left
unchanged. -/
theorem ctxProp_characterized (pkg : String) (analysis : PassAnalysis)
    (r0 : FuncDescriptor) (rs : List FuncDescriptor)
    (h : analysis.RootFunctions = r0 :: rs) (f : PassFile) :
    ∃ (out : PassFile) (imps : List ImportDirective),
      ContextPropagationExecute pkg analysis f = some (out, imps) ∧
      out.imports = f.imports ∧
      out.nodes.length = f.nodes.length ∧
      (∀ (i : Nat) name recvStr ftype params,
        f.nodes[i]? = some (PassNode.funcDecl name recvStr ftype params) →
        out.nodes[i]? = some (PassNode.funcDecl name recvStr ftype
          (if (isFunPartOfCallGraph ⟨pkg, recvStr, name, ftype⟩
                  analysis.Callgraph
                && !(Contains analysis.RootFunctions
                  ⟨pkg, recvStr, name, ftype⟩)
                && isPathTop analysis.Callgraph ⟨pkg, recvStr, name, ftype⟩
                  r0) = true
           then ctxField :: params else params))) ∧
      (∀ (i : Nat) identName ftype args,
        f.nodes[i]? = some (PassNode.callIdent identName (some ftype) args) →
        out.nodes[i]? = some (PassNode.callIdent identName (some ftype)
          (if (Contains analysis.FuncDecls ⟨pkg, "", identName, ftype⟩
                && isPathTop analysis.Callgraph ⟨pkg, "", identName, ftype⟩
                  r0) = true
           then (if currentFunAt pkg default f.nodes i ≠ default then
                   (if isPathTop analysis.Callgraph
                        (currentFunAt pkg default f.nodes i) r0 = true
                    then ctxArg else contextTodo)
                 else contextTodo) :: args
           else args))) ∧
      (∀ (i : Nat) si args,
        f.nodes[i]? = some (PassNode.callSel (some si) args) →
        out.nodes[i]? = some (PassNode.callSel (some si)
          (if (Contains analysis.FuncDecls
                  ⟨pkg, if si.recvString.length > 0 then
                      "." ++ si.recvString else "",
                    si.objName, si.useType.getD ""⟩
                && isPathTop analysis.Callgraph
                  ⟨pkg, if si.recvString.length > 0 then
                      "." ++ si.recvString else "",
                    si.objName, si.useType.getD ""⟩ r0) = true
           then (if currentFunAt pkg default f.nodes i ≠ default then
                   (if isPathTop analysis.Callgraph
                        (currentFunAt pkg default f.nodes i) r0 = true
                    then ctxArg else contextTodo)
                 else contextTodo) :: args
           else args))) := by
  obtain ⟨out, b2, hfold, hlen, hfd, hci, hcs⟩ :=
    CtxPropChar.nodes_char pkg analysis r0 rs h f.nodes default false
  refine ⟨{ f with nodes := out },
    if b2 then [⟨"__atel_context", "context", ImportAction.Add⟩] else [],
    ?_, rfl, hlen, hfd, hci, hcs⟩
  unfold ContextPropagationExecute
  rw [hfold]

/-- Witness for C2's amended theorem at a concrete input: `doWork` is a
call-graph member called by the root, so its declaration gains the context
parameter and the call site inside it gains the caller's context
identifier. -/
theorem ctxProp_characterized_witness :
    ∃ (out : PassFile) (imps : List ImportDirective),
      ContextPropagationExecute "main"
          ⟨[⟨"main", "", "main", "func()"⟩],
            [⟨"main", "", "doWork", "func()"⟩],
            [(⟨"main", "", "doWork", "func()"⟩,
              [⟨"main", "", "main", "func()"⟩])]⟩
          ⟨[], [PassNode.funcDecl "doWork" "" "func()" [],
                PassNode.callIdent "doWork" (some "func()") []]⟩ =
        some (out, imps) ∧
      out.nodes[0]? =
        some (PassNode.funcDecl "doWork" "" "func()" [ctxField]) ∧
      out.nodes[1]? =
        some (PassNode.callIdent "doWork" (some "func()") [ctxArg]) := by
  obtain ⟨out, imps, h1, h2, h3, hfd, hci, hcs⟩ :=
    ctxProp_characterized "main"
      ⟨[⟨"main", "", "main", "func()"⟩],
        [⟨"main", "", "doWork", "func()"⟩],
        [(⟨"main", "", "doWork", "func()"⟩, [⟨"main", "", "main", "func()"⟩])]⟩
      ⟨"main", "", "main", "func()"⟩ [] rfl
      ⟨[], [PassNode.funcDecl "doWork" "" "func()" [],
            PassNode.callIdent "doWork" (some "func()") []]⟩
  refine ⟨out, imps, h1, ?_, ?_⟩
  · have hx := hfd 0 "doWork" "" "func()" [] (by decide)
    rw [hx]
    decide
  · have hx := hci 1 "doWork" "func()" [] (by decide)
    rw [hx]
    decide

namespace PrunerProp

/-- Every element the index-walking removal loop keeps fires no removal
branch: the loop only ever appends elements with zero firings to the
scanned prefix and only ever deletes from it. -/
theorem pruneLoop_sound {α : Type} (hits : α → Nat) :
    ∀ (todo done out : List α), (∀ x ∈ done, hits x = 0) →
      pruneLoop hits done todo = some out → ∀ x ∈ out, hits x = 0 := by
  intro todo
  induction todo with
  | nil =>
    intro done out hd hp
    simp only [pruneLoop, Option.some.injEq] at hp
    subst hp
    exact hd
  | cons x todo ih =>
    intro done out hd hp
    simp only [pruneLoop] at hp
    split at hp
    next hk =>
      refine ih _ _ ?_ hp
      intro y hy
      rcases List.mem_append.mp hy with h | h
      · exact hd y h
      · cases List.mem_singleton.mp h
        exact hk
    next hk =>
      split at hp
      next hle =>
        exact ih _ _ (fun y hy => hd y (List.take_subset _ _ hy)) hp
      next hle => exact Option.noConfusion hp

/-- On input whose elements all fire no removal branch, the removal loop
is the identity (it returns the scanned prefix followed by the input). -/
theorem pruneLoop_fix {α : Type} (hits : α → Nat) :
    ∀ (todo done : List α), (∀ x ∈ todo, hits x = 0) →
      pruneLoop hits done todo = some (done ++ todo) := by
  intro todo
  induction todo with
  | nil => intro done _; simp [pruneLoop]
  | cons x todo ih =>
    intro done ht
    have hx : hits x = 0 := ht x (List.mem_cons_self x todo)
    simp only [pruneLoop, hx, if_pos]
    rw [ih (done ++ [x]) (fun y hy => ht y (List.mem_cons_of_mem x hy))]
    simp

/-- When no element fires more than one removal branch, the index-walking
removal loop is exactly the filter keeping the non-firing elements: this
is the shape of both argument-removal loops of `OtelPruner.Rewrite`, and
justifies the fused filter in `pruneCallArgs`. -/
theorem pruneLoop_unit_filter {α : Type} (hits : α → Nat)
    (hb : ∀ x, hits x ≤ 1) :
    ∀ (todo done : List α),
      pruneLoop hits done todo =
        some (done ++ todo.filter (fun x => hits x == 0)) := by
  intro todo
  induction todo with
  | nil => intro done; simp [pruneLoop]
  | cons x todo ih =>
    intro done
    by_cases hx : hits x = 0
    · simp only [pruneLoop]
      rw [if_pos hx, ih]
      simp [List.filter_cons, hx]
    · have h1 : hits x = 1 :=
        Nat.le_antisymm (hb x) (Nat.one_le_iff_ne_zero.mpr hx)
      simp only [pruneLoop]
      rw [if_neg hx, if_pos (by simp [h1]), h1]
      simp only [Nat.sub_self, Nat.sub_zero, List.take_length]
      rw [ih]
      simp [List.filter_cons, hx]

/-- Descent into subexpressions preserves being a marker-carrying
identifier. -/
theorem isAtelIdent_pruneExpr (e : Expr) :
    isAtelIdent (pruneExpr e) = isAtelIdent e := by
  cases e <;> simp [pruneExpr, isAtelIdent]

/-- Descent into subexpressions preserves the first argument loop's
firing. -/
theorem argHits1_pruneExpr (e : Expr) :
    argHits1 (pruneExpr e) = argHits1 e := by
  simp [argHits1, isAtelIdent_pruneExpr]

/-- Descent into subexpressions preserves the second argument loop's
firing. -/
theorem argHits2_pruneExpr (e : Expr) :
    argHits2 (pruneExpr e) = argHits2 e := by
  cases e with
  | call fn args =>
    cases fn with
    | sel sx s => cases sx <;> simp [pruneExpr, argHits2]
    | ident n => simp [pruneExpr, argHits2]
    | lit => simp [pruneExpr, argHits2]
    | typeAssert a b => simp [pruneExpr, argHits2]
    | call f2 a2 => simp [pruneExpr, argHits2]
  | ident n => simp [pruneExpr, argHits2]
  | lit => simp [pruneExpr, argHits2]
  | sel sx s => simp [pruneExpr, argHits2]
  | typeAssert a b => simp [pruneExpr, argHits2]

/-- Descent into a statement's subexpressions preserves the
body-statement loop's firings. -/
theorem stmtHits_pruneStmt (s : Stmt) :
    stmtHits (pruneStmt s) = stmtHits s := by
  cases s with
  | assign tok l0 ls r0 rs =>
    simp [pruneStmt, stmtHits, isAtelIdent_pruneExpr]
  | exprStmt x =>
    cases x with
    | call fn args =>
      cases fn with
      | sel sx nm => simp [pruneStmt, pruneExpr, stmtHits]
      | ident n => simp [pruneStmt, pruneExpr, stmtHits]
      | lit => simp [pruneStmt, pruneExpr, stmtHits]
      | typeAssert a b => simp [pruneStmt, pruneExpr, stmtHits]
      | call f2 a2 => simp [pruneStmt, pruneExpr, stmtHits]
    | ident n => simp [pruneStmt, pruneExpr, stmtHits]
    | lit => simp [pruneStmt, pruneExpr, stmtHits]
    | sel sx s => simp [pruneStmt, pruneExpr, stmtHits]
    | typeAssert a b => simp [pruneStmt, pruneExpr, stmtHits]
  | deferStmt c =>
    cases c with
    | call fn args =>
      cases fn with
      | sel sx nm => cases sx <;> simp [pruneStmt, pruneExpr, stmtHits]
      | ident n => simp [pruneStmt, pruneExpr, stmtHits]
      | lit => simp [pruneStmt, pruneExpr, stmtHits]
      | typeAssert a b => simp [pruneStmt, pruneExpr, stmtHits]
      | call f2 a2 => simp [pruneStmt, pruneExpr, stmtHits]
    | ident n => simp [pruneStmt, pruneExpr, stmtHits]
    | lit => simp [pruneStmt, pruneExpr, stmtHits]
    | sel sx s => simp [pruneStmt, pruneExpr, stmtHits]
    | typeAssert a b => simp [pruneStmt, pruneExpr, stmtHits]
  | other => rfl

/-- One pass of the argument pruner leaves an expression with no prunable
call-argument artifact anywhere. -/
theorem exprClean_pruneExpr : ∀ e, exprClean (pruneExpr e) = true :=
  pruneExpr.induct (fun e => exprClean (pruneExpr e) = true)
    (fun l => exprArgsClean (pruneCallArgs l) = true)
    (fun _ => rfl)
    rfl
    (fun x s ih => by simp [pruneExpr, exprClean, ih])
    (fun x ty ih1 ih2 => by simp [pruneExpr, exprClean, ih1, ih2])
    (fun fn args ih1 ih2 => by simp [pruneExpr, exprClean, ih1, ih2])
    rfl
    (fun e es hk ih1 ih2 => by
      have hk' := hk
      simp only [Bool.and_eq_true, beq_iff_eq] at hk'
      simp only [pruneCallArgs]
      rw [if_pos hk]
      simp [exprArgsClean, argHits1_pruneExpr, argHits2_pruneExpr,
            hk'.1, hk'.2, ih1, ih2])
    (fun e es hk ih => by
      simp only [pruneCallArgs]
      rw [if_neg hk]
      exact ih)

/-- A clean expression is a fixed point of the argument pruner. -/
theorem pruneExpr_fix : ∀ e, exprClean e = true → pruneExpr e = e :=
  pruneExpr.induct (fun e => exprClean e = true → pruneExpr e = e)
    (fun l => exprArgsClean l = true → pruneCallArgs l = l)
    (fun _ _ => rfl)
    (fun _ => rfl)
    (fun x s ih h => by
      simp only [exprClean] at h
      simp [pruneExpr, ih h])
    (fun x ty ih1 ih2 h => by
      simp only [exprClean, Bool.and_eq_true] at h
      simp [pruneExpr, ih1 h.1, ih2 h.2])
    (fun fn args ih1 ih2 h => by
      simp only [exprClean, Bool.and_eq_true] at h
      simp [pruneExpr, ih1 h.1, ih2 h.2])
    (fun _ => rfl)
    (fun e es hk ih1 ih2 h => by
      simp only [exprArgsClean, Bool.and_eq_true] at h
      simp only [pruneCallArgs]
      rw [if_pos hk, ih1 h.1.2, ih2 h.2])
    (fun e es hk ih h => by
      exfalso
      apply hk
      simp only [exprArgsClean, Bool.and_eq_true] at h
      simp [h.1.1.1, h.1.1.2])

/-- One pass of the argument pruner leaves an operand list clean. -/
theorem exprAllClean_pruneExprAll (l : List Expr) :
    exprAllClean (pruneExprAll l) = true := by
  induction l with
  | nil => rfl
  | cons e es ih => simp [pruneExprAll, exprAllClean, exprClean_pruneExpr, ih]

/-- A clean operand list is a fixed point of the argument pruner. -/
theorem pruneExprAll_fix (l : List Expr) (h : exprAllClean l = true) :
    pruneExprAll l = l := by
  induction l with
  | nil => rfl
  | cons e es ih =>
    simp only [exprAllClean, Bool.and_eq_true] at h
    simp [pruneExprAll, pruneExpr_fix e h.1, ih h.2]

/-- A statement that survives the body loop is left clean by the descent
into its subexpressions. -/
theorem stmtClean_pruneStmt (s : Stmt) (h : stmtHits s = 0) :
    stmtClean (pruneStmt s) = true := by
  have hh : stmtHits (pruneStmt s) = 0 := by rw [stmtHits_pruneStmt]; exact h
  unfold stmtClean
  rw [hh]
  simp only [Nat.zero_eq, beq_self_eq_true, Bool.true_and]
  cases s with
  | assign tok l0 ls r0 rs =>
    simp [pruneStmt, exprClean_pruneExpr, exprAllClean_pruneExprAll]
  | exprStmt x => simp [pruneStmt, exprClean_pruneExpr]
  | deferStmt c => simp [pruneStmt, exprClean_pruneExpr]
  | other => simp [pruneStmt]

/-- A clean statement is a fixed point of the descent. -/
theorem pruneStmt_fix (s : Stmt) (h : stmtClean s = true) :
    pruneStmt s = s := by
  cases s with
  | assign tok l0 ls r0 rs =>
    simp only [stmtClean, Bool.and_eq_true] at h
    simp [pruneStmt, pruneExpr_fix _ h.2.1.1.1, pruneExprAll_fix _ h.2.1.1.2,
          pruneExpr_fix _ h.2.1.2, pruneExprAll_fix _ h.2.2]
  | exprStmt x =>
    simp only [stmtClean, Bool.and_eq_true] at h
    simp [pruneStmt, pruneExpr_fix _ h.2]
  | deferStmt c =>
    simp only [stmtClean, Bool.and_eq_true] at h
    simp [pruneStmt, pruneExpr_fix _ h.2]
  | other => rfl

/-- Soundness of `mapM` over `Option`: if every output of `f` satisfies
`P`, so does every element of a successful `mapM f`. -/
theorem mapM_opt_sound {α : Type} (f : α → Option α) (P : α → Bool)
    (hf : ∀ a b, f a = some b → P b = true) :
    ∀ (l out : List α), l.mapM f = some out → out.all P = true := by
  intro l
  induction l with
  | nil =>
    intro out h
    simp only [List.mapM_nil, pure, Option.some.injEq] at h
    subst h
    rfl
  | cons a l ih =>
    intro out h
    simp only [List.mapM_cons, bind, Option.bind_eq_some, pure,
               Option.some.injEq] at h
    obtain ⟨b, hb, l', hl', rfl⟩ := h
    simp [List.all_cons, hf a b hb, ih l' hl']

/-- Fixed-point lifting of `mapM` over `Option`: if every output of `f`
is itself fixed by `f`, a successful `mapM f` output is fixed by
`mapM f`. -/
theorem mapM_opt_fix {α : Type} (f : α → Option α)
    (hf : ∀ a b, f a = some b → f b = some b) :
    ∀ (l out : List α), l.mapM f = some out → out.mapM f = some out := by
  intro l
  induction l with
  | nil =>
    intro out h
    simp only [List.mapM_nil, pure, Option.some.injEq] at h
    subst h
    rfl
  | cons a l ih =>
    intro out h
    simp only [List.mapM_cons, bind, Option.bind_eq_some, pure,
               Option.some.injEq] at h
    obtain ⟨b, hb, l', hl', rfl⟩ := h
    rw [List.mapM_cons, hf a b hb, ih l' hl']
    rfl

/-- Pruning one interface method entry leaves it with no marker-carrying
parameter field, and a pruned entry is a fixed point of the method
pruning step. -/
theorem pruneMethod_ok (m m' : IfaceMethod)
    (h : pruneMethod m = some m') :
    methodClean m' = true ∧ pruneMethod m' = some m' := by
  cases m with
  | otherTy =>
    simp only [pruneMethod, Option.some.injEq] at h
    subst h
    exact ⟨rfl, rfl⟩
  | funcTy params =>
    simp only [pruneMethod, Option.map_eq_some'] at h
    obtain ⟨ps, hps, rfl⟩ := h
    have hz : ∀ x ∈ ps, fieldHits x = 0 :=
      pruneLoop_sound fieldHits params [] ps (by simp) hps
    constructor
    · simp only [methodClean, List.all_eq_true]
      intro x hx
      simp [hz x hx]
    · simp only [pruneMethod]
      rw [pruneLoop_fix fieldHits ps [] hz]
      simp

/-- Pruning one declaration leaves it clean, and the pruned declaration is
a fixed point of `pruneDecl`. -/
theorem pruneDecl_ok (d d' : Decl) (h : pruneDecl d = some d') :
    declClean d' = true ∧ pruneDecl d' = some d' := by
  cases d with
  | otherDecl =>
    simp only [pruneDecl, Option.some.injEq] at h
    subst h
    exact ⟨rfl, rfl⟩
  | funcDecl name params body =>
    simp only [pruneDecl, inspectFuncContent] at h
    split at h
    next hp => exact Option.noConfusion h
    next ps bs hp =>
      simp only [Option.some.injEq] at h
      subst h
      split at hp
      next hpl => exact Option.noConfusion hp
      next ps2 hpl =>
        split at hp
        next hbl => exact Option.noConfusion hp
        next bs2 hbl =>
        simp only [Option.some.injEq, Prod.mk.injEq] at hp
        obtain ⟨rfl, rfl⟩ := hp
        have hzp : ∀ x ∈ ps2, fieldHits x = 0 :=
          pruneLoop_sound fieldHits params [] ps2 (by simp) hpl
        have hzb : ∀ x ∈ bs2, stmtHits x = 0 :=
          pruneLoop_sound stmtHits body [] bs2 (by simp) hbl
        constructor
        · simp only [declClean, Bool.and_eq_true, List.all_eq_true]
          constructor
          · intro x hx
            simp [hzp x hx]
          · intro x hx
            obtain ⟨b, hbmem, rfl⟩ := List.mem_map.mp hx
            exact stmtClean_pruneStmt b (hzb b hbmem)
        · simp only [pruneDecl, inspectFuncContent]
          rw [pruneLoop_fix fieldHits ps2 [] hzp]
          have hzbp : ∀ x ∈ bs2.map pruneStmt, stmtHits x = 0 := by
            intro x hx
            obtain ⟨b, hbmem, rfl⟩ := List.mem_map.mp hx
            rw [stmtHits_pruneStmt]
            exact hzb b hbmem
          rw [pruneLoop_fix stmtHits (bs2.map pruneStmt) [] hzbp]
          simp only [List.nil_append]
          have hfix : ∀ x ∈ bs2.map pruneStmt, pruneStmt x = id x := by
            intro x hx
            obtain ⟨b, hbmem, rfl⟩ := List.mem_map.mp hx
            exact pruneStmt_fix _ (stmtClean_pruneStmt b (hzb b hbmem))
          rw [List.map_congr_left hfix, List.map_id]
  | ifaceDecl name methods =>
    simp only [pruneDecl] at h
    split at h
    next hm => exact Option.noConfusion h
    next ms hm =>
      simp only [Option.some.injEq] at h
      subst h
      constructor
      · simp only [declClean]
        exact mapM_opt_sound pruneMethod methodClean
          (fun a b hb => (pruneMethod_ok a b hb).1) methods ms hm
      · simp only [pruneDecl]
        rw [mapM_opt_fix pruneMethod
          (fun a b hb => (pruneMethod_ok a b hb).2) methods ms hm]

/-- Every import surviving `astutil.DeleteNamedImport` fails the deleted
(alias, path) pair. -/
theorem deleteNamedImport_prop (n p : String) (l : List (String × String)) :
    ∀ q ∈ deleteNamedImport n p l, (!(q.1 == n && q.2 == p)) = true := by
  intro q hq
  simp only [deleteNamedImport] at hq
  exact (List.mem_filter.mp hq).2

/-- `astutil.DeleteNamedImport` only removes imports. -/
theorem deleteNamedImport_sub (n p : String) (l : List (String × String)) :
    ∀ q ∈ deleteNamedImport n p l, q ∈ l := by
  intro q hq
  simp only [deleteNamedImport] at hq
  exact (List.mem_filter.mp hq).1

/-- Deleting an absent named import is a no-op. -/
theorem deleteNamedImport_of_absent (n p : String)
    (l : List (String × String))
    (h : ∀ q ∈ l, (!(q.1 == n && q.2 == p)) = true) :
    deleteNamedImport n p l = l := by
  simp only [deleteNamedImport]
  exact List.filter_eq_self.mpr h

end PrunerProp

/-- C5: the pruning pass is re-entrant and complete.  If
`OtelPruner.Rewrite` succeeds on a file, then (a) running it again on the
result succeeds and changes nothing, and (b) the result carries no
matching synthetic element at all: every surviving parameter field,
interface-method parameter field and body statement fires no removal
branch, no surviving call argument matches either argument-removal loop,
and none of the three synthetic named imports remains — all occurrences
in every list are removed in the single pass, not just the first. -/
theorem pruner_reentrant_complete (f g : GoFile)
    (h : OtelPrunerRewrite f = some g) :
    OtelPrunerRewrite g = some g ∧ fileClean g = true := by
  unfold OtelPrunerRewrite at h
  split at h
  next hm => exact Option.noConfusion h
  next ds hm =>
    simp only [Option.some.injEq] at h
    subst h
    have hsub3 := PrunerProp.deleteNamedImport_sub "__atel_runtime" "runtime"
      (deleteNamedImport "__atel_otel" "go.opentelemetry.io/otel"
        (deleteNamedImport "__atel_context" "context" f.imports))
    have hsub2 := PrunerProp.deleteNamedImport_sub "__atel_otel"
      "go.opentelemetry.io/otel"
      (deleteNamedImport "__atel_context" "context" f.imports)
    have habs1 : ∀ q ∈ deleteNamedImport "__atel_runtime" "runtime"
        (deleteNamedImport "__atel_otel" "go.opentelemetry.io/otel"
          (deleteNamedImport "__atel_context" "context" f.imports)),
        (!(q.1 == "__atel_context" && q.2 == "context")) = true := by
      intro q hq
      exact PrunerProp.deleteNamedImport_prop "__atel_context" "context"
        f.imports q (hsub2 q (hsub3 q hq))
    have habs2 : ∀ q ∈ deleteNamedImport "__atel_runtime" "runtime"
        (deleteNamedImport "__atel_otel" "go.opentelemetry.io/otel"
          (deleteNamedImport "__atel_context" "context" f.imports)),
        (!(q.1 == "__atel_otel" && q.2 == "go.opentelemetry.io/otel")) =
          true := by
      intro q hq
      exact PrunerProp.deleteNamedImport_prop "__atel_otel"
        "go.opentelemetry.io/otel" _ q (hsub3 q hq)
    have habs3 := PrunerProp.deleteNamedImport_prop "__atel_runtime" "runtime"
      (deleteNamedImport "__atel_otel" "go.opentelemetry.io/otel"
        (deleteNamedImport "__atel_context" "context" f.imports))
    have hds : ds.mapM pruneDecl = some ds :=
      PrunerProp.mapM_opt_fix pruneDecl
        (fun a b hb => (PrunerProp.pruneDecl_ok a b hb).2) f.decls ds hm
    constructor
    · unfold OtelPrunerRewrite
      dsimp only
      rw [hds]
      rw [PrunerProp.deleteNamedImport_of_absent "__atel_context" "context"
        _ habs1]
      rw [PrunerProp.deleteNamedImport_of_absent "__atel_otel"
        "go.opentelemetry.io/otel" _ habs2]
      rw [PrunerProp.deleteNamedImport_of_absent "__atel_runtime" "runtime"
        _ habs3]
    · simp only [fileClean, Bool.and_eq_true]
      refine ⟨⟨⟨?_, ?_⟩, ?_⟩, ?_⟩
      · exact PrunerProp.mapM_opt_sound pruneDecl declClean
          (fun a b hb => (PrunerProp.pruneDecl_ok a b hb).1) f.decls ds hm
      · rw [Bool.not_eq_true', List.any_eq_false]
        intro q hq
        have hx := habs1 q hq
        intro hc
        have hc2 := hc
        rw [hc2] at hx
        exact absurd hx (by decide)
      · rw [Bool.not_eq_true', List.any_eq_false]
        intro q hq
        have hx := habs2 q hq
        intro hc
        have hc2 := hc
        rw [hc2] at hx
        exact absurd hx (by decide)
      · rw [Bool.not_eq_true', List.any_eq_false]
        intro q hq
        have hx := habs3 q hq
        intro hc
        have hc2 := hc
        rw [hc2] at hx
        exact absurd hx (by decide)

/-- C5 witness: on a concrete file with two marker parameter fields, two
prunable statements, two prunable call arguments, a marker interface
method parameter and the three synthetic imports, one pass removes all of
them and the theorem yields re-entrancy and completeness of the result. -/
theorem pruner_reentrant_complete_witness :
    OtelPrunerRewrite sampleDirtyFile = some samplePrunedFile ∧
      (OtelPrunerRewrite samplePrunedFile = some samplePrunedFile ∧
        fileClean samplePrunedFile = true) :=
  ⟨by decide,
   pruner_reentrant_complete sampleDirtyFile samplePrunedFile (by decide)⟩
